import Mathlib

/-!
Verification of the method-selection and listing-patching pipeline of `dcc.py`
(the dex2c driver).  Pure fragments of the Python source are embedded as Lean
functions; the line-oriented file rewrites are modelled as functions over
`List String`; the orchestrating `dcc_main` flow is modelled as a function from
an environment record to an `Except`-trace of external steps.
-/

set_option maxRecDepth 10000

/-! ## String primitives

Python string operations are embedded over `List Char` (computable in the
kernel), wrapped back into `String`. -/

/-- The default whitespace set of Python `str.strip`. -/
def pySpace (c : Char) : Bool :=
  c = ' ' || c = '\t' || c = '\n' || c = '\x0d' || c = '\x0b' || c = '\x0c'

/-- Python `s.strip()`. -/
def pyStrip (s : String) : String :=
  String.mk (((s.toList.dropWhile pySpace).reverse.dropWhile pySpace).reverse)

/-- Python `s.startswith(pat)`. -/
def pyStartsWith (s pat : String) : Bool := pat.toList.isPrefixOf s.toList

/-- Python `s.endswith(pat)`. -/
def pyEndsWith (s pat : String) : Bool := pat.toList.reverse.isPrefixOf s.toList.reverse

/-- Substring containment over character lists. -/
def containsSub : List Char → List Char → Bool
  | [], pat => decide (pat = [])
  | c :: t, pat => pat.isPrefixOf (c :: t) || containsSub t pat

/-- Python `pat in s` (equivalently `s.find(pat) >= 0`). -/
def strContains (s pat : String) : Bool := containsSub s.toList pat.toList

/-- Python `s.split(sep)` for a one-character separator (empty pieces are
kept). -/
def splitChar (sep : Char) : List Char → List (List Char)
  | [] => [[]]
  | c :: t =>
    match splitChar sep t with
    | [] => [[]]
    | h :: r => if c = sep then [] :: h :: r else (c :: h) :: r

/-- Python `s.split(" ")[-1]`. -/
def lastWord (s : String) : String := String.mk ((splitChar ' ' s.toList).getLastD [])

/-- Python `s.replace(pat, rep)` for a non-empty `pat`, written with explicit
fuel (one unit per consumed character). -/
def pyReplaceFuel : Nat → List Char → List Char → List Char → List Char
  | 0, l, _, _ => l
  | _ + 1, [], _, _ => []
  | fuel + 1, c :: t, pat, rep =>
    if pat.isPrefixOf (c :: t) then rep ++ pyReplaceFuel fuel ((c :: t).drop pat.length) pat rep
    else c :: pyReplaceFuel fuel t pat rep

def pyReplace (s pat rep : String) : String :=
  String.mk (pyReplaceFuel s.toList.length s.toList pat.toList rep.toList)

/-- Python `sep.join(parts)`. -/
def strJoin (sep : String) : List String → String
  | [] => ""
  | [x] => x
  | x :: y :: r => x ++ sep ++ strJoin sep (y :: r)

/-- A method record as seen by the driver: the owning class descriptor, the
method name, the full prototype descriptor (parameters followed by return
type, e.g. `(I)V`), and the two access-flag predicates the driver consults.
Modelled from the spec: `is_synthetic_method` / `is_native_method` live in
`dex2c.util` (not under `src/`); they are access-flag tests, exposed here as
flags of the record. -/
structure Method where
  cls : String
  name : String
  proto : String
  synthetic : Bool
  nativeFlag : Bool
deriving DecidableEq

abbrev Triple := String × String × String

def is_synthetic_method (m : Method) : Bool := m.synthetic

def is_native_method (m : Method) : Bool := m.nativeFlag

/-- The portion of a prototype descriptor up to and including the closing
parenthesis, i.e. the descriptor without its return type.
Modelled from the spec: `get_method_triple(..., return_type=False)` from
`dex2c.util` (not under `src/`) drops the return type of the descriptor;
conflict detection compares methods "sharing owning type, name and
parameters". -/
def protoParams (s : String) : String :=
  match s.toList.findIdx? (fun c => c = ')') with
  | some i => String.mk (s.toList.take (i + 1))
  | none => s

/-- `get_method_triple(m)` with the return type kept. -/
def get_method_triple (m : Method) : Triple := (m.cls, m.name, m.proto)

/-- `get_method_triple(m, return_type=False)`. -/
def triple_no_ret (m : Method) : Triple := (m.cls, m.name, protoParams m.proto)

/-- `"".join(method_triple)` as used for the full name of a method. -/
def full_name (m : Method) : String := m.cls ++ m.name ++ m.proto

/-- A class as consumed by `MethodFilter._init_annotation_methods`: its
methods, the type descriptors of its class-level annotations, and the
per-method annotation directory (method, annotation type descriptors). -/
structure DexClass where
  methods : List Method
  class_annotations : List String
  method_annotations : List (Method × List String)
deriving DecidableEq

/-- One dex unit (`DalvikVMFormat`): the method list and the class list. -/
structure Dex where
  methods : List Method
  classes : List DexClass

/-- The parsed filter configuration: include regexes (file order), keep
regexes, and the exact full-name match set.  Regex matching is embedded
abstractly as Boolean predicates on the full name. -/
structure FilterCfg where
  compile_filters : List (String → Bool)
  keep_filters : List (String → Bool)
  compile_full_match : List String

structure MethodFilter where
  compile_filters : List (String → Bool)
  keep_filters : List (String → Bool)
  compile_full_match : List String
  conflict_methods : List Method
  native_methods : List (String × String)
  annotated_methods : List Method

/-- Association-list lookup on the `all_methods` dictionary of
`_init_conflict_methods`. -/
def alookup : List (Triple × Method) → Triple → Option Method
  | [], _ => none
  | (t, m) :: rest, t' => if t' = t then some m else alookup rest t'

/-- The loop body of `MethodFilter._init_conflict_methods`: walk the methods,
remembering the first method seen for each return-type-less triple; on a
repeat, both the new and the remembered method join the conflict set. -/
def conflict_loop : List (Triple × Method) → List Method → List Method → List Method
  | _, conf, [] => conf
  | all, conf, m :: rest =>
    match alookup all (triple_no_ret m) with
    | some m0 => conflict_loop all (conf ++ [m, m0]) rest
    | none => conflict_loop ((triple_no_ret m, m) :: all) conf rest

def init_conflict_methods (methods : List Method) : List Method :=
  conflict_loop [] [] methods

/-- How many methods of `l` share the return-type-less triple of `m`
(counting `m` itself when present). -/
def tnr_count (l : List Method) (m : Method) : Nat :=
  l.countP (fun x => decide (triple_no_ret x = triple_no_ret m))

/-- `MethodFilter._init_native_methods`: the (class, name) pairs of methods
whose access flags contain `native`. -/
def init_native_methods (methods : List Method) : List (String × String) :=
  methods.foldl (fun acc m => if is_native_method m then acc ++ [(m.cls, m.name)] else acc) []

/-- `s.endswith("Dex2C;")` over a list of annotation type descriptors. -/
def dex2c_annotated (descs : List String) : Bool :=
  descs.any (fun t => pyEndsWith t "Dex2C;")

/-- `MethodFilter._add_annotation_method`: synthetic and native methods are
unconditionally dropped. -/
def add_annotation_method (acc : List Method) (m : Method) : List Method :=
  if !is_synthetic_method m && !is_native_method m then acc ++ [m] else acc

/-- The body of `MethodFilter._init_annotation_methods` for one class: a class
carrying a `Dex2C;` class-level annotation contributes all of its methods;
otherwise the per-method annotation directory is consulted. -/
def annotation_methods_class (acc : List Method) (c : DexClass) : List Method :=
  if dex2c_annotated c.class_annotations then
    c.methods.foldl add_annotation_method acc
  else
    c.method_annotations.foldl
      (fun a p => if dex2c_annotated p.2 then add_annotation_method a p.1 else a) acc

def init_annotation_methods (classes : List DexClass) : List Method :=
  classes.foldl annotation_methods_class []

/-- `MethodFilter.__init__` for one dex unit. -/
def MethodFilter.init (cfg : FilterCfg) (d : Dex) : MethodFilter :=
  { compile_filters := cfg.compile_filters
    keep_filters := cfg.keep_filters
    compile_full_match := cfg.compile_full_match
    conflict_methods := init_conflict_methods d.methods
    native_methods := init_native_methods d.methods
    annotated_methods := init_annotation_methods d.classes }

/-- `MethodFilter.should_compile`, with the global `skip_synthetic` flag made
an explicit argument `sk`. -/
def should_compile (sk : Bool) (f : MethodFilter) (m : Method) : Bool :=
  if m ∈ f.conflict_methods then false
  else if is_synthetic_method m && sk then false
  else if is_native_method m then false
  else if m.name = "<clinit>" then false
  else if (m.cls, m.name) ∈ f.native_methods then false
  else if f.keep_filters.any (fun r => r (full_name m)) then false
  else if full_name m ∈ f.compile_full_match then true
  else if m ∈ f.annotated_methods then true
  else if f.compile_filters.any (fun r => r (full_name m)) then true
  else false

/-! ## `compile_dex` -/

/-- Insert-or-replace on an association list, matching Python dictionary
assignment (`d[k] = v`): an existing key keeps its position, a new key is
appended. -/
def alistInsert (l : List (Triple × String)) (k : Triple) (v : String) : List (Triple × String) :=
  if l.any (fun p => p.1 = k) then l.map (fun p => if p.1 = k then (k, v) else p)
  else l ++ [(k, v)]

/-- Python `d.update(d2)`. -/
def alistUpdate (l l2 : List (Triple × String)) : List (Triple × String) :=
  l2.foldl (fun acc p => alistInsert acc p.1 p.2) l

def keys (l : List (Triple × String)) : List Triple := l.map Prod.fst

/-- The mutable state of the loops in `compile_dex`: the cross-dex
accumulators `X_compiled_method_code` / `X_errors` plus the per-dex
`compiled_method_code` / `errors`. -/
structure CompileState where
  Xcode : List (Triple × String)
  Xerrors : List String
  localCode : List (Triple × String)
  localErrors : List String

/-- The per-method body of the loop in `compile_dex`.  The external
translator `Dex2C.get_source_method` is abstracted as `translator` (an
exception becomes `.error`, a `None`/empty result is falsy), and
`JniLongName` from `dex2c.util` (not under `src/`) is abstracted as the
function `jni` on method triples. -/
def compile_method_step (sk : Bool) (mf : MethodFilter)
    (translator : Method → Except String (Option String)) (jni : Triple → String)
    (st : CompileState) (m : Method) : CompileState :=
  if 220 < (jni (get_method_triple m)).length then st
  else if should_compile sk mf m then
    match translator m with
    | .error e =>
      { st with
        localErrors := st.localErrors ++ [full_name m ++ ":" ++ e]
        Xerrors := st.Xerrors ++ (st.localErrors ++ [full_name m ++ ":" ++ e]) }
    | .ok code =>
      match code with
      | some c =>
        if c = "" then st
        else
          { st with
            localCode := alistInsert st.localCode (get_method_triple m) c
            Xcode := alistUpdate st.Xcode (alistInsert st.localCode (get_method_triple m) c) }
      | none => st
  else st

/-- The per-dex iteration of `compile_dex`: a fresh `MethodFilter` and fresh
local accumulators per dex unit. -/
def compile_dex_step (sk : Bool) (cfg : FilterCfg)
    (translator : Method → Except String (Option String)) (jni : Triple → String)
    (st : List (Triple × String) × List String) (d : Dex) :
    List (Triple × String) × List String :=
  ((d.methods.foldl (compile_method_step sk (MethodFilter.init cfg d) translator jni)
      { Xcode := st.1, Xerrors := st.2, localCode := [], localErrors := [] }).Xcode,
   (d.methods.foldl (compile_method_step sk (MethodFilter.init cfg d) translator jni)
      { Xcode := st.1, Xerrors := st.2, localCode := [], localErrors := [] }).Xerrors)

/-- `compile_dex`: returns the compiled-method map and the error list. -/
def compile_dex (sk : Bool) (cfg : FilterCfg)
    (translator : Method → Except String (Option String)) (jni : Triple → String)
    (dexes : List Dex) : List (Triple × String) × List String :=
  dexes.foldl (compile_dex_step sk cfg translator jni) ([], [])

/-! ## `native_class_methods` (the listing patcher) -/

/-- `current_method[:param], current_method[param:]` where
`param = current_method.find("(")` — Python `find` yields `-1` when absent,
which then slices off the final character. -/
def splitAtParen (cur : String) : String × String :=
  match cur.toList.findIdx? (fun c => c = '(') with
  | some i => (String.mk (cur.toList.take i), String.mk (cur.toList.drop i))
  | none =>
    (String.mk (cur.toList.take (cur.toList.length - 1)),
     String.mk (cur.toList.drop (cur.toList.length - 1)))

/-- The annotation-start condition of `handle_method_body`:
`.annotation runtime` with no `Dex2C` occurrence
(`s.startswith(".annotation runtime") and s.find("Dex2C") < 0`). -/
def isKeptAnnStart (s : String) : Bool :=
  pyStartsWith s ".annotation runtime" && !(strContains s "Dex2C")

/-- The reading mode of `native_class_methods`: the main loop (`scanning`),
the nested loop of `handle_method_body` (`inBody`), and the nested loop of
`handle_annotanion` (`inAnnBlock`).  The nested reader loops of the Python
source consume the same line stream, so they flatten into one recursion with
an explicit mode. -/
inductive PatchMode where
  | scanning
  | inBody
  | inAnnBlock
deriving DecidableEq

/-- The line loop of `native_class_methods`.  In `scanning`, a `.class` line
updates the class context and a `.method` line whose (class, name, proto)
triple is a key of `compiled` switches to `inBody` after inserting a `native`
token into the header unless one is present.  In `inBody` (the body of
`handle_method_body`), lines are dropped until `.end method` — which emits
the single synthetic `".end method\n"` line (also emitted when the input ends
inside a body) — except that a qualifying annotation start switches to
`inAnnBlock` (the body of `handle_annotanion`), which copies every line
through up to and including `.end annotation`. -/
def native_loop (compiled : List Triple) : PatchMode → String → List String → List String
  | .scanning, _, [] => []
  | .inBody, _, [] => [".end method\n"]
  | .inAnnBlock, _, [] => [".end method\n"]
  | .scanning, class_name, line :: rest =>
    if pyStartsWith (pyStrip line) ".class" then
      line :: native_loop compiled .scanning (lastWord (pyStrip line)) rest
    else if pyStartsWith (pyStrip line) ".method" then
      if (class_name, (splitAtParen (lastWord (pyStrip line))).1,
          (splitAtParen (lastWord (pyStrip line))).2) ∈ compiled then
        (if strContains (pyStrip line) " native " then line
         else pyReplace line (lastWord (pyStrip line)) ("native " ++ lastWord (pyStrip line))) ::
          native_loop compiled .inBody class_name rest
      else line :: native_loop compiled .scanning class_name rest
    else line :: native_loop compiled .scanning class_name rest
  | .inBody, class_name, line :: rest =>
    if pyStrip line = ".end method" then
      ".end method\n" :: native_loop compiled .scanning class_name rest
    else if isKeptAnnStart (pyStrip line) then
      line :: native_loop compiled .inAnnBlock class_name rest
    else native_loop compiled .inBody class_name rest
  | .inAnnBlock, class_name, line :: rest =>
    line ::
      (if pyStrip line = ".end annotation" then native_loop compiled .inBody class_name rest
       else native_loop compiled .inAnnBlock class_name rest)

/-- `native_class_methods` as a pure function from the input listing lines to
the rewritten lines (`class_name` starts out as `""`). -/
def native_class_methods (compiled : List Triple) (lines : List String) : List String :=
  native_loop compiled .scanning "" lines


/-! ## `adjust_application_mk` -/

def supported_abis : List String := ["armeabi-v7a", "arm64-v8a", "x86_64", "x86"]

/-- `file_name.split("/")[1].strip()`. -/
def abiOf (file_name : String) : String :=
  pyStrip (String.mk ((splitChar '/' file_name.toList).getD 1 []))

/-- The zip-entry loop of `adjust_application_mk`: collect available ABI
directory names (a Python set, embedded as an insertion-ordered list without
duplicates), remapping the deprecated `armeabi` with a warning and failing on
anything unsupported. -/
def collectAbis : List String → List String → List String → Except String (List String × List String)
  | [], warns, abis => .ok (warns, abis)
  | n :: rest, warns, abis =>
    if pyStartsWith n "lib/" then
      if abiOf n ∈ supported_abis then
        collectAbis rest warns (if abiOf n ∈ abis then abis else abis ++ [abiOf n])
      else if abiOf n = "armeabi" then
        collectAbis rest
          (warns ++ ["ABI armeabi is depreacated, using armeabi-v7a instead"])
          (if "armeabi-v7a" ∈ abis then abis else abis ++ ["armeabi-v7a"])
      else
        .error ("ABI " ++ abiOf n ++
          " is unsupported, please remove it from apk or use flag --force-keep-libs and try again")
    else collectAbis rest warns abis

/-- `adjust_application_mk`, over the apk file name, the zip entry list and
the lines of `Application.mk`; returns the warnings, the reconciled ABI set
and the resulting `Application.mk` lines. -/
def adjust_application_mk (apkfile : String) (namelist : List String)
    (mk : List String) : Except String (List String × List String × List String) :=
  if pyEndsWith apkfile ".apk" then
    match collectAbis namelist [] [] with
    | .error e => .error e
    | .ok (warns, abis) =>
      if abis.length = 0 then .ok (warns, abis, mk)
      else
        .ok (warns, abis,
          mk.map (fun line =>
            if pyStartsWith line "APP_ABI" then
              "APP_ABI := " ++ strJoin " " abis ++ "\n"
            else line))
  else .error (apkfile ++ " is not an apk file")

/-! ## `dcc_main` -/

/-- Python `content.insert(n, a)`. -/
def list_insert (l : List String) (n : Nat) (a : String) : List String :=
  l.take n ++ a :: l.drop n

/-- The entry-point injection block of `dcc_main`: find the first line
containing `<clinit>`; if absent, append the synthesized replacement block;
if present, find the first line from it on containing `.locals` or
`.registers` and insert the loader call right after it — when no such line
exists the listing is returned unchanged (the code only logs an error). -/
def inject_clinit (line_to_insert code_block : String) (content : List String) : List String :=
  match content.findIdx? (fun l => strContains l "<clinit>") with
  | none => content ++ [code_block]
  | some index =>
    match (content.drop index).findIdx?
        (fun l => strContains l ".locals" || strContains l ".registers") with
    | none => content
    | some li => list_insert content (index + li + 1) line_to_insert

/-- `line_to_insert` of `dcc_main`. -/
def line_to_insert (custom_loader : String) : String :=
  "    invoke-static \x7b\x7d, L" ++ pyReplace custom_loader "." "/" ++ ";->initDcc()V\n"

/-- `code_block_to_append` of `dcc_main` (the synthesized `<clinit>`). -/
def code_block_to_append (custom_loader : String) : String :=
  "\n                .method static final constructor <clinit>()V\n" ++
  "                    .registers 0\n\n                " ++
  line_to_insert custom_loader ++
  "\n\n                    return-void\n                .end method\n                "

/-- The externally visible actions `dcc_main` can take, in order of
appearance in the source. -/
inductive Step where
  | patchDex2C
  | adjustMk
  | compileDex
  | writeMethods
  | archive
  | buildProject
  | decompile
  | patchListings
  | copyLibs
  | manifestEdit
  | injectClinit
  | writeLoader
  | recompile
  | sign
deriving DecidableEq

/-- The environment `dcc_main` runs against: its arguments, the global flags,
and the observations it makes of the file system and of its collaborators. -/
structure DccEnv where
  apkfile : String
  apk_exists : Bool
  outapk : String
  custom_loader : String
  filtercfg : FilterCfg
  skip_synthetic : Bool
  force_keep_libs : Bool
  dexes : List Dex
  translator : Method → Except String (Option String)
  jni : Triple → String
  do_compile : Bool
  has_project_dir : Bool
  namelist : List String
  application_mk : List String
  local_module : Option String
  application_class_name : String
  app_class_content : Option (List String)

/-- The optional archive step of `dcc_main` (taken when no project directory
was given and building is disabled). -/
def archive_steps (env : DccEnv) : List Step :=
  if !env.has_project_dir && !env.do_compile then [Step.archive] else []

/-- The optional native-build step of `dcc_main`. -/
def build_steps (env : DccEnv) : List Step :=
  if env.do_compile then [Step.buildProject] else []

/-- The steps taken before `compile_dex`: the bootstrap source patch, plus
the ABI reconciliation unless the force-keep-libs override is set. -/
def adjust_steps (env : DccEnv) : List Step :=
  if env.force_keep_libs = false then [Step.patchDex2C, Step.adjustMk] else [Step.patchDex2C]

/-- The result of the guarded `adjust_application_mk` call of `dcc_main`
(`.ok` when the override is set and the call is skipped). -/
def adjust_result (env : DccEnv) : Except String Unit :=
  if env.force_keep_libs = false then
    match adjust_application_mk env.apkfile env.namelist env.application_mk with
    | .error e => .error e
    | .ok _ => .ok ()
  else .ok ()

/-- `dcc_main` as a trace function: the returned list records which external
steps ran, in order, and the `Option (List String)` is the application-class
listing written back when the entry-point injection path ran.  A raised
exception is `.error`; an early `return` is `.ok` with the trace so far. -/
def dcc_main (env : DccEnv) : Except String (List Step × Option (List String)) :=
  if env.apk_exists = false then .ok ([], none)
  else if env.outapk = "" then .ok ([], none)
  else if !(strContains env.custom_loader ".") then .ok ([], none)
  else
    match adjust_result env with
    | .error e => .error e
    | .ok _ =>
      if (compile_dex env.skip_synthetic env.filtercfg env.translator env.jni env.dexes).1.length
          = 0 then
        .ok (adjust_steps env ++ [Step.compileDex], none)
      else
        if pyEndsWith env.apkfile ".apk" && !(env.outapk == "") then
          match env.local_module with
          | none => .error "Invalid LOCAL_MODULE defined in project/jni/Android.mk"
          | some _ =>
            match env.app_class_content with
            | none =>
              .ok (adjust_steps env ++ [Step.compileDex, Step.writeMethods] ++
                archive_steps env ++ build_steps env ++
                [Step.decompile, Step.patchListings, Step.copyLibs, Step.manifestEdit,
                  Step.writeLoader, Step.recompile, Step.sign], none)
            | some content =>
              if env.application_class_name = "" then
                .ok (adjust_steps env ++ [Step.compileDex, Step.writeMethods] ++
                  archive_steps env ++ build_steps env ++
                  [Step.decompile, Step.patchListings, Step.copyLibs, Step.manifestEdit,
                    Step.writeLoader, Step.recompile, Step.sign], none)
              else
                .ok (adjust_steps env ++ [Step.compileDex, Step.writeMethods] ++
                  archive_steps env ++ build_steps env ++
                  [Step.decompile, Step.patchListings, Step.copyLibs, Step.injectClinit,
                    Step.writeLoader, Step.recompile, Step.sign],
                  some (inject_clinit (line_to_insert env.custom_loader)
                    (code_block_to_append env.custom_loader) content))
        else
          .ok (adjust_steps env ++ [Step.compileDex, Step.writeMethods] ++
            archive_steps env ++ build_steps env, none)

/-! ## Concrete instances used by witnesses and counterexamples -/

/-- A plain method. -/
def mw_plain : Method := ⟨"LFoo;", "bar", "(I)V", false, false⟩

/-- A synthetic method. -/
def mw_syn : Method := ⟨"LFoo;", "baz", "()V", true, false⟩

/-- A filter in which every exclusion veto and every inclusion rule fires for
`mw_plain`. -/
def fw_keep : MethodFilter :=
  { compile_filters := [fun _ => true]
    keep_filters := [fun _ => true]
    compile_full_match := ["LFoo;bar(I)V"]
    conflict_methods := []
    native_methods := []
    annotated_methods := [mw_plain] }

/-- A class carrying the `Dex2C;` class-level annotation. -/
def cw_annotated : DexClass :=
  { methods := [mw_plain, mw_syn]
    class_annotations := ["Lcom/example/Dex2C;"]
    method_annotations := [] }

/-- A configuration whose exact-match set selects the synthetic method. -/
def cfgw_syn : FilterCfg :=
  { compile_filters := []
    keep_filters := []
    compile_full_match := ["LFoo;baz()V"] }

/-- A dex holding the synthetic method and the annotated class. -/
def dw_syn : Dex := { methods := [mw_syn], classes := [cw_annotated] }

/-- Two methods differing only in return type. -/
def mw_conf1 : Method := ⟨"LFoo;", "f", "(I)V", false, false⟩

def mw_conf2 : Method := ⟨"LFoo;", "f", "(I)I", false, false⟩

def dw_conf : Dex := { methods := [mw_conf1, mw_conf2], classes := [] }

/-- A configuration whose single include rule matches everything. -/
def cfgw_all : FilterCfg :=
  { compile_filters := [fun _ => true], keep_filters := [], compile_full_match := [] }

/-- A translator that always succeeds. -/
def trw_ok : Method → Except String (Option String) := fun _ => .ok (some "src")

/-- A short mangled-name function. -/
def jniw : Triple → String := fun _ => "short"

/-- A mangled-name function exceeding the 220-character bound everywhere. -/
def jniw_long : Triple → String := fun _ => String.mk (List.replicate 221 'a')

/-- A method on which the translator fails, and one on which it succeeds. -/
def mw_fail : Method := ⟨"LBar;", "g", "()V", false, false⟩

def mw_ok : Method := ⟨"LBar;", "h", "()V", false, false⟩

def dw_err : Dex := { methods := [mw_fail, mw_ok], classes := [] }

/-- A translator failing exactly on `mw_fail`. -/
def trw_mixed : Method → Except String (Option String) :=
  fun m => if m.name = "g" then .error "boom" else .ok (some "src")

/-! Concrete listing fragments for the patcher witness. -/

def w4_compiled : List Triple := [("LFoo;", "run", "()V")]

def w4_header : String := ".method public run()V\n"

def w4_instr1 : List String := ["    .registers 2\n"]

def w4_annStart : String := "    .annotation runtime Ljava/lang/Deprecated;\n"

def w4_annContent : List String := ["        value = true\n"]

def w4_annEnd : String := "    .end annotation\n"

def w4_instr2 : List String := ["    return-void\n"]

def w4_endLine : String := ".end method\n"

def w4_post : List String := ["# done\n"]

def w4_lines : List String :=
  [".class public LFoo;\n", ".method public other()V\n", ".end method\n"]

/-! Concrete inputs for the ABI-reconciliation witness. -/

def w6_names_bad : List String := ["lib/mips/libx.so"]

def w6_names_arm : List String := ["lib/armeabi/libx.so", "lib/x86/liby.so"]

def w6_mk : List String := ["APP_ABI := all\n", "APP_PLATFORM := android-21\n"]

def w6_warns : List String := ["ABI armeabi is depreacated, using armeabi-v7a instead"]

def w6_abis : List String := ["armeabi-v7a", "x86"]

def w6_mk2 : List String := ["APP_ABI := armeabi-v7a x86\n", "APP_PLATFORM := android-21\n"]

/-- An environment with the force-keep-libs override set and nothing to
compile. -/
def envw_force : DccEnv :=
  { apkfile := "a.apk", apk_exists := true, outapk := "out.apk", custom_loader := "com.App",
    filtercfg := cfgw_all, skip_synthetic := false, force_keep_libs := true,
    dexes := [], translator := trw_ok, jni := jniw, do_compile := false,
    has_project_dir := false, namelist := [], application_mk := [],
    local_module := some "nc", application_class_name := "", app_class_content := none }

/-- An environment whose selection comes out empty (build requested, but
there is nothing to compile). -/
def envw_empty : DccEnv :=
  { apkfile := "b.apk", apk_exists := true, outapk := "out.apk", custom_loader := "com.App",
    filtercfg := cfgw_all, skip_synthetic := false, force_keep_libs := true,
    dexes := [{ methods := [], classes := [] }], translator := trw_ok, jni := jniw,
    do_compile := true, has_project_dir := false, namelist := [], application_mk := [],
    local_module := some "nc", application_class_name := "com.App",
    app_class_content := some ["x\n"] }

/-! ## Lemmas about the annotation-marked set -/

theorem add_annotation_method_mono {x : Method} {acc : List Method} (m' : Method)
    (h : x ∈ acc) : x ∈ add_annotation_method acc m' := by
  unfold add_annotation_method
  split
  · exact List.mem_append_left _ h
  · exact h

theorem mem_add_annotation_method {x : Method} {acc : List Method} {m' : Method}
    (h : x ∈ add_annotation_method acc m') :
    x ∈ acc ∨ (x = m' ∧ is_synthetic_method m' = false ∧ is_native_method m' = false) := by
  unfold add_annotation_method at h
  split at h
  · rcases List.mem_append.mp h with h' | h'
    · exact Or.inl h'
    · rename_i hc
      simp only [Bool.and_eq_true, Bool.not_eq_true'] at hc
      exact Or.inr ⟨List.mem_singleton.mp h', hc.1, hc.2⟩
  · exact Or.inl h

theorem foldl_add_annotation_mono {x : Method} (ms : List Method) (acc : List Method)
    (h : x ∈ acc) : x ∈ ms.foldl add_annotation_method acc := by
  induction ms generalizing acc with
  | nil => exact h
  | cons m' rest ih => exact ih _ (add_annotation_method_mono m' h)

theorem foldl_add_annotation_mem {m : Method} (ms : List Method) (acc : List Method)
    (hm : m ∈ ms) (hs : is_synthetic_method m = false) (hn : is_native_method m = false) :
    m ∈ ms.foldl add_annotation_method acc := by
  induction ms generalizing acc with
  | nil => cases hm
  | cons m' rest ih =>
    simp only [List.foldl_cons]
    rcases List.mem_cons.mp hm with rfl | h'
    · apply foldl_add_annotation_mono
      unfold add_annotation_method
      simp [hs, hn]
    · exact ih _ h'

theorem mem_foldl_add_annotation {x : Method} (ms : List Method) (acc : List Method)
    (h : x ∈ ms.foldl add_annotation_method acc) :
    x ∈ acc ∨ (is_synthetic_method x = false ∧ is_native_method x = false) := by
  induction ms generalizing acc with
  | nil => exact Or.inl h
  | cons m' rest ih =>
    rcases ih _ h with h' | h'
    · rcases mem_add_annotation_method h' with h'' | ⟨rfl, h1, h2⟩
      · exact Or.inl h''
      · exact Or.inr ⟨h1, h2⟩
    · exact Or.inr h'

theorem mem_foldl_cond_add_annotation {x : Method}
    (ps : List (Method × List String)) (acc : List Method)
    (h : x ∈ ps.foldl
      (fun a p => if dex2c_annotated p.2 then add_annotation_method a p.1 else a) acc) :
    x ∈ acc ∨ (is_synthetic_method x = false ∧ is_native_method x = false) := by
  induction ps generalizing acc with
  | nil => exact Or.inl h
  | cons p rest ih =>
    rcases ih _ h with h' | h'
    · by_cases hd : dex2c_annotated p.2
      · simp only [hd, if_true] at h'
        rcases mem_add_annotation_method h' with h'' | ⟨rfl, h1, h2⟩
        · exact Or.inl h''
        · exact Or.inr ⟨h1, h2⟩
      · simp only [hd, if_false] at h'
        exact Or.inl h'
    · exact Or.inr h'

theorem annotation_methods_class_mono {x : Method} {acc : List Method} (c : DexClass)
    (h : x ∈ acc) : x ∈ annotation_methods_class acc c := by
  unfold annotation_methods_class
  split
  · exact foldl_add_annotation_mono _ _ h
  · induction c.method_annotations generalizing acc with
    | nil => exact h
    | cons p rest ih =>
      simp only [List.foldl_cons]
      apply ih
      split
      · exact add_annotation_method_mono _ h
      · exact h

theorem mem_annotation_methods_class {x : Method} {acc : List Method} {c : DexClass}
    (h : x ∈ annotation_methods_class acc c) :
    x ∈ acc ∨ (is_synthetic_method x = false ∧ is_native_method x = false) := by
  unfold annotation_methods_class at h
  split at h
  · exact mem_foldl_add_annotation _ _ h
  · exact mem_foldl_cond_add_annotation _ _ h

theorem foldl_annotation_classes_mono {x : Method} (cs : List DexClass) (acc : List Method)
    (h : x ∈ acc) : x ∈ cs.foldl annotation_methods_class acc := by
  induction cs generalizing acc with
  | nil => exact h
  | cons c rest ih => exact ih _ (annotation_methods_class_mono c h)

theorem mem_init_annotation_methods {x : Method} {classes : List DexClass}
    (h : x ∈ init_annotation_methods classes) :
    is_synthetic_method x = false ∧ is_native_method x = false := by
  unfold init_annotation_methods at h
  have H : ∀ (cs : List DexClass) (acc : List Method),
      (∀ y ∈ acc, is_synthetic_method y = false ∧ is_native_method y = false) →
      x ∈ cs.foldl annotation_methods_class acc →
      is_synthetic_method x = false ∧ is_native_method x = false := by
    intro cs
    induction cs with
    | nil => intro acc hacc hx; exact hacc x hx
    | cons c rest ih =>
      intro acc hacc hx
      apply ih (annotation_methods_class acc c) _ hx
      intro y hy
      rcases mem_annotation_methods_class hy with h' | h'
      · exact hacc y h'
      · exact h'
  exact H classes [] (by intro y hy; cases hy) h

/-! ## Projection lemmas for `MethodFilter.init` -/

theorem MF_init_compile_filters (cfg : FilterCfg) (d : Dex) :
    (MethodFilter.init cfg d).compile_filters = cfg.compile_filters := rfl

theorem MF_init_keep_filters (cfg : FilterCfg) (d : Dex) :
    (MethodFilter.init cfg d).keep_filters = cfg.keep_filters := rfl

theorem MF_init_full_match (cfg : FilterCfg) (d : Dex) :
    (MethodFilter.init cfg d).compile_full_match = cfg.compile_full_match := rfl

theorem MF_init_conflict (cfg : FilterCfg) (d : Dex) :
    (MethodFilter.init cfg d).conflict_methods = init_conflict_methods d.methods := rfl

theorem MF_init_native (cfg : FilterCfg) (d : Dex) :
    (MethodFilter.init cfg d).native_methods = init_native_methods d.methods := rfl

theorem MF_init_annotated (cfg : FilterCfg) (d : Dex) :
    (MethodFilter.init cfg d).annotated_methods = init_annotation_methods d.classes := rfl

/-- C2.  `should_compile` applies its exclusion checks before any inclusion
check: each structural veto (conflict set, synthetic with skip enabled,
native, static initializer, same-named native) forces `false`, and a matching
keep-rule regex forces `false` even when the exact-match set, the annotation
set and an include rule would all include the method. -/
theorem shouldCompile_fixed_order (sk : Bool) (f : MethodFilter) (m : Method) :
    (m ∈ f.conflict_methods → should_compile sk f m = false) ∧
    (is_synthetic_method m = true → sk = true → should_compile sk f m = false) ∧
    (is_native_method m = true → should_compile sk f m = false) ∧
    (m.name = "<clinit>" → should_compile sk f m = false) ∧
    ((m.cls, m.name) ∈ f.native_methods → should_compile sk f m = false) ∧
    (f.keep_filters.any (fun r => r (full_name m)) = true →
      full_name m ∈ f.compile_full_match →
      m ∈ f.annotated_methods →
      f.compile_filters.any (fun r => r (full_name m)) = true →
      should_compile sk f m = false) := by
  refine ⟨?_, ?_, ?_, ?_, ?_, ?_⟩ <;>
    (intros; unfold should_compile; split_ifs <;> simp_all)

/-- Witness for C2: with every inclusion rule firing for `mw_plain` and a
keep rule also matching, the decision is still `Exclude`. -/
theorem shouldCompile_fixed_order_witness : should_compile false fw_keep mw_plain = false :=
  (shouldCompile_fixed_order false fw_keep mw_plain).2.2.2.2.2
    (by decide) (by decide) (by decide) (by decide)

/-- C9.  The annotation-marked set never contains a synthetic or native
method, and hence — even with the skip-synthetic option disabled — a
synthetic method can only be selected through the exact-match set or an
include rule, never through the annotation path. -/
theorem annotated_methods_no_synthetic :
    (∀ (classes : List DexClass) (m : Method),
      m ∈ init_annotation_methods classes →
      is_synthetic_method m = false ∧ is_native_method m = false) ∧
    (∀ (cfg : FilterCfg) (d : Dex) (m : Method),
      is_synthetic_method m = true →
      should_compile false (MethodFilter.init cfg d) m = true →
      full_name m ∈ cfg.compile_full_match ∨
        cfg.compile_filters.any (fun r => r (full_name m)) = true) := by
  constructor
  · intro classes m h
    exact mem_init_annotation_methods h
  · intro cfg d m hsyn hsc
    unfold should_compile at hsc
    rw [MF_init_conflict, MF_init_native, MF_init_annotated, MF_init_keep_filters,
      MF_init_full_match, MF_init_compile_filters] at hsc
    split_ifs at hsc with h1 h2 h3 h4 h5 h6 h7 h8 h9
    · exact Or.inl h7
    · exact absurd (mem_init_annotation_methods h8).1 (by simp [hsyn])
    · exact Or.inr h9

/-- Witness for C9: the synthetic method of `dw_syn` carries the class-level
annotation but is selected only because of the exact-match rule. -/
theorem annotated_methods_no_synthetic_witness :
    (is_synthetic_method mw_plain = false ∧ is_native_method mw_plain = false) ∧
    (full_name mw_syn ∈ cfgw_syn.compile_full_match ∨
      cfgw_syn.compile_filters.any (fun r => r (full_name mw_syn)) = true) :=
  ⟨annotated_methods_no_synthetic.1 [cw_annotated] mw_plain (by decide),
   annotated_methods_no_synthetic.2 cfgw_syn dw_syn mw_syn (by decide) (by decide)⟩

/-- C10.  A class-level `Dex2C;` annotation marks every non-synthetic,
non-native method of the class, regardless of the per-method annotation
directory — which is only consulted when the class is not so annotated. -/
theorem class_annotation_marks_all_methods :
    (∀ (classes : List DexClass) (c : DexClass) (m : Method),
      c ∈ classes → dex2c_annotated c.class_annotations = true → m ∈ c.methods →
      is_synthetic_method m = false → is_native_method m = false →
      m ∈ init_annotation_methods classes) ∧
    (∀ (acc : List Method) (c : DexClass) (x : List (Method × List String)),
      dex2c_annotated c.class_annotations = true →
      annotation_methods_class acc { c with method_annotations := x } =
        annotation_methods_class acc c) := by
  constructor
  · intro classes c m hc hann hm hs hn
    obtain ⟨pre, post, rfl⟩ := List.append_of_mem hc
    unfold init_annotation_methods
    rw [List.foldl_append, List.foldl_cons]
    apply foldl_annotation_classes_mono
    unfold annotation_methods_class
    rw [if_pos hann]
    exact foldl_add_annotation_mem _ _ hm hs hn
  · intro acc c x hann
    unfold annotation_methods_class
    simp only [hann, if_true]

/-- Witness for C10: `mw_plain` has no method-level annotation entry, yet it
is in the annotation-marked set through its class; and the class contribution
is unchanged by any method-annotation directory. -/
theorem class_annotation_marks_all_methods_witness :
    mw_plain ∈ init_annotation_methods [cw_annotated] ∧
    annotation_methods_class [] { cw_annotated with method_annotations := [(mw_plain, [])] } =
      annotation_methods_class [] cw_annotated :=
  ⟨class_annotation_marks_all_methods.1 [cw_annotated] cw_annotated mw_plain
      (by decide) (by decide) (by decide) (by decide) (by decide),
   class_annotation_marks_all_methods.2 [] cw_annotated [(mw_plain, [])] (by decide)⟩

/-! ## Characterisation of the conflict set -/

theorem alookup_cons (t : Triple) (m : Method) (all : List (Triple × Method)) (t' : Triple) :
    alookup ((t, m) :: all) t' = if t' = t then some m else alookup all t' := rfl

theorem conflict_loop_nil (all : List (Triple × Method)) (conf : List Method) :
    conflict_loop all conf [] = conf := rfl

theorem conflict_loop_cons_some (all : List (Triple × Method)) (conf : List Method)
    (a : Method) (rest : List Method) (m0 : Method)
    (h : alookup all (triple_no_ret a) = some m0) :
    conflict_loop all conf (a :: rest) = conflict_loop all (conf ++ [a, m0]) rest := by
  conv_lhs => rw [conflict_loop]
  rw [h]

theorem conflict_loop_cons_none (all : List (Triple × Method)) (conf : List Method)
    (a : Method) (rest : List Method)
    (h : alookup all (triple_no_ret a) = none) :
    conflict_loop all conf (a :: rest) =
      conflict_loop ((triple_no_ret a, a) :: all) conf rest := by
  conv_lhs => rw [conflict_loop]
  rw [h]

theorem conflict_loop_conf_mono :
    ∀ (l : List Method) (all : List (Triple × Method)) (conf : List Method) (m : Method),
    m ∈ conf → m ∈ conflict_loop all conf l := by
  intro l
  induction l with
  | nil => intro all conf m h; exact h
  | cons a rest ih =>
    intro all conf m h
    cases halo : alookup all (triple_no_ret a) with
    | some m0 =>
      rw [conflict_loop_cons_some _ _ _ _ _ halo]
      exact ih _ _ _ (List.mem_append_left _ h)
    | none =>
      rw [conflict_loop_cons_none _ _ _ _ halo]
      exact ih _ _ _ h

theorem conflict_loop_of_alookup :
    ∀ (l : List Method) (all : List (Triple × Method)) (conf : List Method) (m mx : Method),
    mx ∈ l → alookup all (triple_no_ret mx) = some m → m ∈ conflict_loop all conf l := by
  intro l
  induction l with
  | nil => intro all conf m mx h _; cases h
  | cons a rest ih =>
    intro all conf m mx hmx hl
    rcases List.mem_cons.mp hmx with rfl | hmx'
    · rw [conflict_loop_cons_some _ _ _ _ _ hl]
      apply conflict_loop_conf_mono
      simp
    · cases halo : alookup all (triple_no_ret a) with
      | some m0 =>
        rw [conflict_loop_cons_some _ _ _ _ _ halo]
        exact ih _ _ _ _ hmx' hl
      | none =>
        rw [conflict_loop_cons_none _ _ _ _ halo]
        apply ih _ _ _ mx hmx'
        rw [alookup_cons]
        by_cases he : triple_no_ret mx = triple_no_ret a
        · rw [he, halo] at hl; cases hl
        · rw [if_neg he]; exact hl

theorem mem_conflict_loop :
    ∀ (l : List Method) (all : List (Triple × Method)) (conf : List Method) (m : Method),
    m ∈ conflict_loop all conf l →
    m ∈ conf ∨
      (m ∈ l ∧ ((alookup all (triple_no_ret m)).isSome = true ∨ 2 ≤ tnr_count l m)) ∨
      (∃ mx, mx ∈ l ∧ alookup all (triple_no_ret mx) = some m) := by
  intro l
  induction l with
  | nil =>
    intro all conf m h
    rw [conflict_loop_nil] at h
    exact Or.inl h
  | cons a rest ih =>
    intro all conf m h
    cases halo : alookup all (triple_no_ret a) with
    | some m0 =>
      rw [conflict_loop_cons_some _ _ _ _ _ halo] at h
      rcases ih _ _ _ h with hc | ⟨hm, hseen | hcnt⟩ | ⟨mx, hmx, hl⟩
      · rcases List.mem_append.mp hc with hc' | hc'
        · exact Or.inl hc'
        · rcases List.mem_cons.mp hc' with rfl | hc''
          · refine Or.inr (Or.inl ⟨List.mem_cons_self _ _, Or.inl ?_⟩)
            rw [halo]; rfl
          · rcases List.mem_cons.mp hc'' with rfl | hc3
            · exact Or.inr (Or.inr ⟨a, List.mem_cons_self _ _, halo⟩)
            · cases hc3
      · exact Or.inr (Or.inl ⟨List.mem_cons_of_mem _ hm, Or.inl hseen⟩)
      · refine Or.inr (Or.inl ⟨List.mem_cons_of_mem _ hm, Or.inr ?_⟩)
        unfold tnr_count at hcnt ⊢
        rw [List.countP_cons]
        exact le_trans hcnt (Nat.le_add_right _ _)
      · exact Or.inr (Or.inr ⟨mx, List.mem_cons_of_mem _ hmx, hl⟩)
    | none =>
      rw [conflict_loop_cons_none _ _ _ _ halo] at h
      rcases ih _ _ _ h with hc | ⟨hm, hseen | hcnt⟩ | ⟨mx, hmx, hl⟩
      · exact Or.inl hc
      · rw [alookup_cons] at hseen
        by_cases he : triple_no_ret m = triple_no_ret a
        · refine Or.inr (Or.inl ⟨List.mem_cons_of_mem _ hm, Or.inr ?_⟩)
          unfold tnr_count
          have h1 : 0 < List.countP (fun x => decide (triple_no_ret x = triple_no_ret m)) rest :=
            List.countP_pos_iff.mpr ⟨m, hm, by simp⟩
          rw [List.countP_cons_of_pos _ _ (by simp [he.symm])]
          omega
        · rw [if_neg he] at hseen
          exact Or.inr (Or.inl ⟨List.mem_cons_of_mem _ hm, Or.inl hseen⟩)
      · refine Or.inr (Or.inl ⟨List.mem_cons_of_mem _ hm, Or.inr ?_⟩)
        unfold tnr_count at hcnt ⊢
        rw [List.countP_cons]
        exact le_trans hcnt (Nat.le_add_right _ _)
      · rw [alookup_cons] at hl
        by_cases he : triple_no_ret mx = triple_no_ret a
        · rw [if_pos he] at hl
          have hma : a = m := by injection hl with h'
          subst hma
          refine Or.inr (Or.inl ⟨List.mem_cons_self _ _, Or.inr ?_⟩)
          unfold tnr_count
          have h1 : 0 < List.countP (fun x => decide (triple_no_ret x = triple_no_ret a)) rest :=
            List.countP_pos_iff.mpr ⟨mx, hmx, by simp [he]⟩
          rw [List.countP_cons_of_pos _ _ (by simp)]
          omega
        · rw [if_neg he] at hl
          exact Or.inr (Or.inr ⟨mx, List.mem_cons_of_mem _ hmx, hl⟩)

theorem conflict_loop_mem_of :
    ∀ (l : List Method) (all : List (Triple × Method)) (conf : List Method) (m : Method),
    m ∈ l → ((alookup all (triple_no_ret m)).isSome = true ∨ 2 ≤ tnr_count l m) →
    m ∈ conflict_loop all conf l := by
  intro l
  induction l with
  | nil => intro all conf m h _; cases h
  | cons a rest ih =>
    intro all conf m hm hcond
    rcases List.mem_cons.mp hm with rfl | hm'
    · cases halo : alookup all (triple_no_ret m) with
      | some m0 =>
        rw [conflict_loop_cons_some _ _ _ _ _ halo]
        apply conflict_loop_conf_mono
        simp
      | none =>
        rcases hcond with hseen | hcnt
        · rw [halo] at hseen; cases hseen
        · have h1 : 0 < tnr_count rest m := by
            unfold tnr_count at hcnt ⊢
            rw [List.countP_cons_of_pos _ _ (by simp)] at hcnt
            omega
          obtain ⟨y, hy, hpy⟩ := List.countP_pos_iff.mp h1
          rw [conflict_loop_cons_none _ _ _ _ halo]
          apply conflict_loop_of_alookup _ _ _ m y hy
          rw [alookup_cons]
          have h3 : triple_no_ret y = triple_no_ret m := of_decide_eq_true hpy
          rw [if_pos h3]
    · cases halo : alookup all (triple_no_ret a) with
      | some m0 =>
        rw [conflict_loop_cons_some _ _ _ _ _ halo]
        apply ih _ _ _ hm'
        rcases hcond with hseen | hcnt
        · exact Or.inl hseen
        · by_cases he : triple_no_ret a = triple_no_ret m
          · left
            rw [← he, halo]
            rfl
          · right
            unfold tnr_count at hcnt ⊢
            rw [List.countP_cons_of_neg _ _ (by simp [he])] at hcnt
            exact hcnt
      | none =>
        rw [conflict_loop_cons_none _ _ _ _ halo]
        apply ih _ _ _ hm'
        rcases hcond with hseen | hcnt
        · left
          rw [alookup_cons]
          split
          · rfl
          · exact hseen
        · by_cases he : triple_no_ret a = triple_no_ret m
          · left
            rw [alookup_cons, if_pos he.symm]
            rfl
          · right
            unfold tnr_count at hcnt ⊢
            rw [List.countP_cons_of_neg _ _ (by simp [he])] at hcnt
            exact hcnt

/-- A member of the conflict set shares its return-type-less triple with at
least two methods of the list. -/
theorem mem_init_conflict_methods {l : List Method} {m : Method}
    (h : m ∈ init_conflict_methods l) : m ∈ l ∧ 2 ≤ tnr_count l m := by
  rcases mem_conflict_loop l [] [] m h with hc | ⟨hm, hseen | hcnt⟩ | ⟨mx, _, hl⟩
  · cases hc
  · simp [alookup] at hseen
  · exact ⟨hm, hcnt⟩
  · simp [alookup] at hl

/-- Conversely, any method of the list whose return-type-less triple occurs
at least twice is in the conflict set. -/
theorem init_conflict_methods_of_count {l : List Method} {m : Method}
    (hm : m ∈ l) (hc : 2 ≤ tnr_count l m) : m ∈ init_conflict_methods l :=
  conflict_loop_mem_of l [] [] m hm (Or.inr hc)

/-! ## Key and error lemmas for `compile_dex` -/

theorem keys_map_ite (l : List (Triple × String)) (k : Triple) (v : String) :
    keys (l.map (fun p => if p.1 = k then (k, v) else p)) = keys l := by
  induction l with
  | nil => rfl
  | cons p rest ih =>
    unfold keys at *
    simp only [List.map_cons]
    rw [ih]
    congr 1
    split
    · rename_i h; exact h.symm
    · rfl

theorem mem_keys_alistInsert {l : List (Triple × String)} {k : Triple} {v : String} {a : Triple} :
    a ∈ keys (alistInsert l k v) ↔ a ∈ keys l ∨ a = k := by
  unfold alistInsert
  split
  · rename_i hany
    rw [keys_map_ite]
    constructor
    · exact Or.inl
    · intro h
      rcases h with h | rfl
      · exact h
      · obtain ⟨p, hp, hpk⟩ := List.any_eq_true.mp hany
        exact List.mem_map.mpr ⟨p, hp, of_decide_eq_true hpk⟩
  · unfold keys
    rw [List.map_append]
    simp

theorem mem_keys_alistUpdate {l l2 : List (Triple × String)} {a : Triple} :
    a ∈ keys (alistUpdate l l2) ↔ a ∈ keys l ∨ a ∈ keys l2 := by
  unfold alistUpdate
  induction l2 generalizing l with
  | nil => simp [keys]
  | cons p rest ih =>
    simp only [List.foldl_cons]
    rw [ih, mem_keys_alistInsert]
    unfold keys
    simp only [List.map_cons, List.mem_cons]
    tauto

theorem compile_method_step_Xcode_mono (sk : Bool) (mf : MethodFilter)
    (translator : Method → Except String (Option String)) (jni : Triple → String)
    (st : CompileState) (m : Method) {a : Triple} (h : a ∈ keys st.Xcode) :
    a ∈ keys (compile_method_step sk mf translator jni st m).Xcode := by
  unfold compile_method_step
  split
  · exact h
  · split
    · split
      · exact h
      · split
        · split
          · exact h
          · exact mem_keys_alistUpdate.mpr (Or.inl h)
        · exact h
    · exact h

theorem compile_method_step_Xerrors_mono (sk : Bool) (mf : MethodFilter)
    (translator : Method → Except String (Option String)) (jni : Triple → String)
    (st : CompileState) (m : Method) {e' : String} (h : e' ∈ st.Xerrors) :
    e' ∈ (compile_method_step sk mf translator jni st m).Xerrors := by
  unfold compile_method_step
  split
  · exact h
  · split
    · split
      · exact List.mem_append_left _ h
      · split
        · split
          · exact h
          · exact h
        · exact h
    · exact h

theorem compile_method_step_inv (sk : Bool) (mf : MethodFilter)
    (translator : Method → Except String (Option String)) (jni : Triple → String)
    (st : CompileState) (m : Method)
    (hinv : ∀ b ∈ keys st.localCode, b ∈ keys st.Xcode) :
    ∀ b ∈ keys (compile_method_step sk mf translator jni st m).localCode,
      b ∈ keys (compile_method_step sk mf translator jni st m).Xcode := by
  unfold compile_method_step
  split
  · exact hinv
  · split
    · split
      · exact hinv
      · split
        · split
          · exact hinv
          · intro b hb
            exact mem_keys_alistUpdate.mpr (Or.inr hb)
        · exact hinv
    · exact hinv

theorem compile_method_step_Xcode_origin (sk : Bool) (mf : MethodFilter)
    (translator : Method → Except String (Option String)) (jni : Triple → String)
    (st : CompileState) (m : Method) {a : Triple}
    (hinv : ∀ b ∈ keys st.localCode, b ∈ keys st.Xcode)
    (h : a ∈ keys (compile_method_step sk mf translator jni st m).Xcode) :
    a ∈ keys st.Xcode ∨
      (a = get_method_triple m ∧ ¬ 220 < (jni (get_method_triple m)).length ∧
        should_compile sk mf m = true) := by
  unfold compile_method_step at h
  split at h
  · exact Or.inl h
  · rename_i hlen
    split at h
    · rename_i hsc
      split at h
      · exact Or.inl h
      · split at h
        · split at h
          · exact Or.inl h
          · rcases mem_keys_alistUpdate.mp h with h' | h'
            · exact Or.inl h'
            · rcases mem_keys_alistInsert.mp h' with h'' | rfl
              · exact Or.inl (hinv _ h'')
              · exact Or.inr ⟨rfl, hlen, hsc⟩
        · exact Or.inl h
    · exact Or.inl h

theorem foldl_compile_inv (sk : Bool) (mf : MethodFilter)
    (translator : Method → Except String (Option String)) (jni : Triple → String) :
    ∀ (ms : List Method) (st : CompileState),
    (∀ b ∈ keys st.localCode, b ∈ keys st.Xcode) →
    ∀ b ∈ keys ((ms.foldl (compile_method_step sk mf translator jni) st).localCode),
      b ∈ keys ((ms.foldl (compile_method_step sk mf translator jni) st).Xcode) := by
  intro ms
  induction ms with
  | nil => intro st hinv; exact hinv
  | cons m rest ih =>
    intro st hinv
    simp only [List.foldl_cons]
    exact ih _ (compile_method_step_inv sk mf translator jni st m hinv)

theorem foldl_compile_keys_origin (sk : Bool) (mf : MethodFilter)
    (translator : Method → Except String (Option String)) (jni : Triple → String) :
    ∀ (ms : List Method) (st : CompileState) (a : Triple),
    (∀ b ∈ keys st.localCode, b ∈ keys st.Xcode) →
    a ∈ keys ((ms.foldl (compile_method_step sk mf translator jni) st).Xcode) →
    a ∈ keys st.Xcode ∨ ∃ m ∈ ms, a = get_method_triple m ∧
      ¬ 220 < (jni (get_method_triple m)).length ∧ should_compile sk mf m = true := by
  intro ms
  induction ms with
  | nil => intro st a _ h; exact Or.inl h
  | cons m rest ih =>
    intro st a hinv h
    simp only [List.foldl_cons] at h
    rcases ih _ a (compile_method_step_inv sk mf translator jni st m hinv) h with
      h' | ⟨m', hm', hspec⟩
    · rcases compile_method_step_Xcode_origin sk mf translator jni st m hinv h' with h'' | hspec
      · exact Or.inl h''
      · exact Or.inr ⟨m, List.mem_cons_self _ _, hspec⟩
    · exact Or.inr ⟨m', List.mem_cons_of_mem _ hm', hspec⟩

theorem foldl_compile_keys_mono (sk : Bool) (mf : MethodFilter)
    (translator : Method → Except String (Option String)) (jni : Triple → String) :
    ∀ (ms : List Method) (st : CompileState) (a : Triple),
    a ∈ keys st.Xcode →
    a ∈ keys ((ms.foldl (compile_method_step sk mf translator jni) st).Xcode) := by
  intro ms
  induction ms with
  | nil => intro st a h; exact h
  | cons m rest ih =>
    intro st a h
    simp only [List.foldl_cons]
    exact ih _ _ (compile_method_step_Xcode_mono sk mf translator jni st m h)

theorem foldl_compile_errors_mono (sk : Bool) (mf : MethodFilter)
    (translator : Method → Except String (Option String)) (jni : Triple → String) :
    ∀ (ms : List Method) (st : CompileState) (e' : String),
    e' ∈ st.Xerrors →
    e' ∈ ((ms.foldl (compile_method_step sk mf translator jni) st).Xerrors) := by
  intro ms
  induction ms with
  | nil => intro st e' h; exact h
  | cons m rest ih =>
    intro st e' h
    simp only [List.foldl_cons]
    exact ih _ _ (compile_method_step_Xerrors_mono sk mf translator jni st m h)

theorem compile_dex_keys_origin (sk : Bool) (cfg : FilterCfg)
    (translator : Method → Except String (Option String)) (jni : Triple → String) :
    ∀ (dexes : List Dex) (st : List (Triple × String) × List String) (a : Triple),
    a ∈ keys (dexes.foldl (compile_dex_step sk cfg translator jni) st).1 →
    a ∈ keys st.1 ∨ ∃ d ∈ dexes, ∃ m ∈ d.methods, a = get_method_triple m ∧
      ¬ 220 < (jni (get_method_triple m)).length ∧
      should_compile sk (MethodFilter.init cfg d) m = true := by
  intro dexes
  induction dexes with
  | nil => intro st a h; exact Or.inl h
  | cons d rest ih =>
    intro st a h
    simp only [List.foldl_cons] at h
    rcases ih _ a h with h' | ⟨d', hd', hspec⟩
    · unfold compile_dex_step at h'
      rcases foldl_compile_keys_origin sk (MethodFilter.init cfg d) translator jni d.methods
          { Xcode := st.1, Xerrors := st.2, localCode := [], localErrors := [] } a
          (by intro b hb; simp [keys] at hb) h' with h'' | ⟨m, hm, hspec⟩
      · exact Or.inl h''
      · exact Or.inr ⟨d, List.mem_cons_self _ _, m, hm, hspec⟩
    · exact Or.inr ⟨d', List.mem_cons_of_mem _ hd', hspec⟩

/-- C1.  A member of the conflict set (same owning type, name and parameters,
different return type) is rejected by `should_compile`, and its triple is
never a key of the compiled-method map returned by `compile_dex` on that
method set. -/
theorem conflict_methods_never_compiled (sk : Bool) (cfg : FilterCfg)
    (translator : Method → Except String (Option String)) (jni : Triple → String)
    (d : Dex) (m : Method)
    (hconf : m ∈ init_conflict_methods d.methods) :
    should_compile sk (MethodFilter.init cfg d) m = false ∧
    get_method_triple m ∉ keys (compile_dex sk cfg translator jni [d]).1 := by
  constructor
  · unfold should_compile
    rw [MF_init_conflict, if_pos hconf]
  · intro h
    unfold compile_dex at h
    rcases compile_dex_keys_origin sk cfg translator jni [d] ([], []) _ h with
      h' | ⟨d', hd', m', hm', heq, _, hsc⟩
    · simp [keys] at h'
    · have hd2 : d' = d := List.mem_singleton.mp hd'
      rw [hd2] at hm' hsc
      simp only [get_method_triple, Prod.mk.injEq] at heq
      have htnr : triple_no_ret m' = triple_no_ret m := by
        unfold triple_no_ret
        rw [heq.1, heq.2.1, heq.2.2]
      obtain ⟨_, hcnt⟩ := mem_init_conflict_methods hconf
      have hcnt' : 2 ≤ tnr_count d.methods m' := by
        unfold tnr_count at hcnt ⊢
        rw [show (fun x => decide (triple_no_ret x = triple_no_ret m')) =
            (fun x => decide (triple_no_ret x = triple_no_ret m)) from
          funext (fun x => by rw [htnr])]
        exact hcnt
      have hmem : m' ∈ init_conflict_methods d.methods :=
        init_conflict_methods_of_count hm' hcnt'
      unfold should_compile at hsc
      rw [MF_init_conflict, if_pos hmem] at hsc
      cases hsc

/-- Witness for C1: two overloads of `LFoo;.f` differing only in return type
are both conflict-excluded. -/
theorem conflict_methods_never_compiled_witness :
    mw_conf1 ∈ init_conflict_methods dw_conf.methods ∧
    (should_compile false (MethodFilter.init cfgw_all dw_conf) mw_conf1 = false ∧
      get_method_triple mw_conf1 ∉ keys (compile_dex false cfgw_all trw_ok jniw [dw_conf]).1) :=
  ⟨by decide,
   conflict_methods_never_compiled false cfgw_all trw_ok jniw dw_conf mw_conf1 (by decide)⟩

/-- C3.  A triple whose mangled JNI long name exceeds 220 characters is never
a key of the compiled-method map, whatever the rule engine would decide. -/
theorem long_jni_name_never_compiled (sk : Bool) (cfg : FilterCfg)
    (translator : Method → Except String (Option String)) (jni : Triple → String)
    (dexes : List Dex) (t : Triple)
    (hlen : 220 < (jni t).length) :
    t ∉ keys (compile_dex sk cfg translator jni dexes).1 := by
  intro h
  unfold compile_dex at h
  rcases compile_dex_keys_origin sk cfg translator jni dexes ([], []) t h with
    h' | ⟨d, _, m, _, heq, hl, _⟩
  · simp [keys] at h'
  · rw [heq] at hlen
    exact hl hlen

/-- Witness for C3: with a mangled name of 221 characters, the all-including
rule set still never compiles the method. -/
theorem long_jni_name_never_compiled_witness :
    220 < (jniw_long (get_method_triple mw_conf1)).length ∧
    get_method_triple mw_conf1 ∉ keys (compile_dex false cfgw_all trw_ok jniw_long [dw_conf]).1 :=
  ⟨by decide,
   long_jni_name_never_compiled false cfgw_all trw_ok jniw_long [dw_conf]
     (get_method_triple mw_conf1) (by decide)⟩

theorem compile_method_step_error_mem (sk : Bool) (mf : MethodFilter)
    (translator : Method → Except String (Option String)) (jni : Triple → String)
    (st : CompileState) (m : Method) (e : String)
    (hlen : ¬ 220 < (jni (get_method_triple m)).length)
    (hsc : should_compile sk mf m = true)
    (htr : translator m = .error e) :
    (full_name m ++ ":" ++ e) ∈ (compile_method_step sk mf translator jni st m).Xerrors := by
  unfold compile_method_step
  rw [if_neg hlen, if_pos hsc, htr]
  simp

theorem compile_method_step_key_mem (sk : Bool) (mf : MethodFilter)
    (translator : Method → Except String (Option String)) (jni : Triple → String)
    (st : CompileState) (m : Method) (c : String)
    (hlen : ¬ 220 < (jni (get_method_triple m)).length)
    (hsc : should_compile sk mf m = true)
    (htr : translator m = .ok (some c)) (hc : ¬ c = "") :
    get_method_triple m ∈ (compile_method_step sk mf translator jni st m).Xcode.map Prod.fst := by
  unfold compile_method_step
  rw [if_neg hlen, if_pos hsc, htr]
  simp only [if_neg hc]
  exact mem_keys_alistUpdate.mpr (Or.inr (mem_keys_alistInsert.mpr (Or.inr rfl)))

theorem compile_dex_step_keys_mono (sk : Bool) (cfg : FilterCfg)
    (translator : Method → Except String (Option String)) (jni : Triple → String)
    (st : List (Triple × String) × List String) (d : Dex) {a : Triple}
    (h : a ∈ keys st.1) : a ∈ keys (compile_dex_step sk cfg translator jni st d).1 := by
  unfold compile_dex_step
  exact foldl_compile_keys_mono sk (MethodFilter.init cfg d) translator jni d.methods
    { Xcode := st.1, Xerrors := st.2, localCode := [], localErrors := [] } a h

theorem compile_dex_step_errors_mono (sk : Bool) (cfg : FilterCfg)
    (translator : Method → Except String (Option String)) (jni : Triple → String)
    (st : List (Triple × String) × List String) (d : Dex) {e : String}
    (h : e ∈ st.2) : e ∈ (compile_dex_step sk cfg translator jni st d).2 := by
  unfold compile_dex_step
  exact foldl_compile_errors_mono sk (MethodFilter.init cfg d) translator jni d.methods
    { Xcode := st.1, Xerrors := st.2, localCode := [], localErrors := [] } e h

theorem foldl_dex_keys_mono (sk : Bool) (cfg : FilterCfg)
    (translator : Method → Except String (Option String)) (jni : Triple → String) :
    ∀ (dexes : List Dex) (st : List (Triple × String) × List String) (a : Triple),
    a ∈ keys st.1 →
    a ∈ keys (dexes.foldl (compile_dex_step sk cfg translator jni) st).1 := by
  intro dexes
  induction dexes with
  | nil => intro st a h; exact h
  | cons d rest ih =>
    intro st a h
    simp only [List.foldl_cons]
    exact ih _ _ (compile_dex_step_keys_mono sk cfg translator jni st d h)

theorem foldl_dex_errors_mono (sk : Bool) (cfg : FilterCfg)
    (translator : Method → Except String (Option String)) (jni : Triple → String) :
    ∀ (dexes : List Dex) (st : List (Triple × String) × List String) (e : String),
    e ∈ st.2 →
    e ∈ (dexes.foldl (compile_dex_step sk cfg translator jni) st).2 := by
  intro dexes
  induction dexes with
  | nil => intro st e h; exact h
  | cons d rest ih =>
    intro st e h
    simp only [List.foldl_cons]
    exact ih _ _ (compile_dex_step_errors_mono sk cfg translator jni st d h)

/-- C8.  A translator failure for one selected method is recorded in the
error list of `compile_dex` and does not prevent any other selected and
successfully translated method of the same input from appearing in the
compiled-method map. -/
theorem translator_failure_nonfatal (sk : Bool) (cfg : FilterCfg)
    (translator : Method → Except String (Option String)) (jni : Triple → String)
    (dexes : List Dex) (d : Dex) (m m' : Method) (e c : String)
    (hd : d ∈ dexes)
    (hm : m ∈ d.methods) (hm' : m' ∈ d.methods)
    (hlen : ¬ 220 < (jni (get_method_triple m)).length)
    (hsc : should_compile sk (MethodFilter.init cfg d) m = true)
    (htr : translator m = .error e)
    (hlen' : ¬ 220 < (jni (get_method_triple m')).length)
    (hsc' : should_compile sk (MethodFilter.init cfg d) m' = true)
    (htr' : translator m' = .ok (some c)) (hc : ¬ c = "") :
    (full_name m ++ ":" ++ e) ∈ (compile_dex sk cfg translator jni dexes).2 ∧
    get_method_triple m' ∈ keys (compile_dex sk cfg translator jni dexes).1 := by
  obtain ⟨pre, post, rfl⟩ := List.append_of_mem hd
  unfold compile_dex
  rw [List.foldl_append, List.foldl_cons]
  constructor
  · apply foldl_dex_errors_mono
    unfold compile_dex_step
    obtain ⟨p1, p2, hsplit⟩ := List.append_of_mem hm
    rw [hsplit, List.foldl_append, List.foldl_cons]
    apply foldl_compile_errors_mono
    exact compile_method_step_error_mem sk (MethodFilter.init cfg d) translator jni _ m e
      hlen hsc htr
  · apply foldl_dex_keys_mono
    unfold compile_dex_step
    obtain ⟨p1, p2, hsplit⟩ := List.append_of_mem hm'
    rw [hsplit, List.foldl_append, List.foldl_cons]
    apply foldl_compile_keys_mono
    exact compile_method_step_key_mem sk (MethodFilter.init cfg d) translator jni _ m' c
      hlen' hsc' htr' hc

/-- Witness for C8: `mw_fail` fails to translate, yet `mw_ok` from the same
dex is compiled, and the failure is recorded. -/
theorem translator_failure_nonfatal_witness :
    (full_name mw_fail ++ ":" ++ "boom") ∈ (compile_dex false cfgw_all trw_mixed jniw [dw_err]).2 ∧
    get_method_triple mw_ok ∈ keys (compile_dex false cfgw_all trw_mixed jniw [dw_err]).1 :=
  translator_failure_nonfatal false cfgw_all trw_mixed jniw [dw_err] dw_err mw_fail mw_ok
    "boom" "src" (List.mem_singleton.mpr rfl) (by decide) (by decide)
    (by decide) (by decide) rfl (by decide) (by decide) rfl (by decide)

/-! ## Lemmas about the listing patcher -/

theorem kept_ann_ne_end {s : String} (h : isKeptAnnStart s = true) : ¬ s = ".end method" := by
  intro he
  rw [he] at h
  exact absurd h (by decide)

theorem native_loop_scanning_copy (compiled : List Triple) (cn line : String)
    (rest : List String)
    (hclass : pyStartsWith (pyStrip line) ".class" = false)
    (hsel : (cn, (splitAtParen (lastWord (pyStrip line))).1,
      (splitAtParen (lastWord (pyStrip line))).2) ∉ compiled) :
    native_loop compiled .scanning cn (line :: rest) =
      line :: native_loop compiled .scanning cn rest := by
  simp only [native_loop]
  rw [if_neg (by simp [hclass])]
  by_cases hm : pyStartsWith (pyStrip line) ".method" = true
  · rw [if_pos hm, if_neg hsel]
  · rw [if_neg hm]

theorem native_loop_body_discard (compiled : List Triple) (cn : String) :
    ∀ (ls rest : List String),
    (∀ l ∈ ls, ¬ pyStrip l = ".end method" ∧ isKeptAnnStart (pyStrip l) = false) →
    native_loop compiled .inBody cn (ls ++ rest) = native_loop compiled .inBody cn rest := by
  intro ls
  induction ls with
  | nil => intro rest _; rfl
  | cons l t ih =>
    intro rest hd
    have hl := hd l (List.mem_cons_self _ _)
    simp only [List.cons_append, native_loop]
    rw [if_neg hl.1, if_neg (by simp [hl.2])]
    exact ih rest (fun x hx => hd x (List.mem_cons_of_mem _ hx))

theorem native_loop_ann_copy (compiled : List Triple) (cn : String) :
    ∀ (ls rest : List String),
    (∀ l ∈ ls, ¬ pyStrip l = ".end annotation") →
    native_loop compiled .inAnnBlock cn (ls ++ rest) =
      ls ++ native_loop compiled .inAnnBlock cn rest := by
  intro ls
  induction ls with
  | nil => intro rest _; rfl
  | cons l t ih =>
    intro rest hd
    have hl := hd l (List.mem_cons_self _ _)
    simp only [List.cons_append, native_loop]
    rw [if_neg hl]
    congr 1
    exact ih rest (fun x hx => hd x (List.mem_cons_of_mem _ hx))

theorem native_loop_body_end (compiled : List Triple) (cn e : String) (post : List String)
    (h : pyStrip e = ".end method") :
    native_loop compiled .inBody cn (e :: post) =
      ".end method\n" :: native_loop compiled .scanning cn post := by
  simp only [native_loop]
  rw [if_pos h]

theorem native_loop_body_ann (compiled : List Triple) (cn a : String) (rest : List String)
    (h : isKeptAnnStart (pyStrip a) = true) :
    native_loop compiled .inBody cn (a :: rest) =
      a :: native_loop compiled .inAnnBlock cn rest := by
  simp only [native_loop]
  rw [if_neg (kept_ann_ne_end h), if_pos h]

theorem native_loop_ann_end (compiled : List Triple) (cn e : String) (rest : List String)
    (h : pyStrip e = ".end annotation") :
    native_loop compiled .inAnnBlock cn (e :: rest) =
      e :: native_loop compiled .inBody cn rest := by
  simp only [native_loop]
  rw [if_pos h]

theorem native_loop_empty_compiled :
    ∀ (lines : List String) (cn : String), native_loop [] .scanning cn lines = lines := by
  intro lines
  induction lines with
  | nil => intro cn; rfl
  | cons line rest ih =>
    intro cn
    simp only [native_loop]
    by_cases h1 : pyStartsWith (pyStrip line) ".class" = true
    · rw [if_pos h1, ih]
    · rw [if_neg h1]
      by_cases h2 : pyStartsWith (pyStrip line) ".method" = true
      · rw [if_pos h2, if_neg (List.not_mem_nil _), ih]
      · rw [if_neg h2, ih]

/-- C4.  The listing patcher (i) copies the whole listing byte-identically
when nothing is selected, (ii) copies any line that is not the header of a
selected method verbatim while staying in scanning mode, and (iii) for a
selected method rewrites the segment to: the header with a `native` token
inserted exactly when none is present, the verbatim non-`Dex2C` annotation
block, and a single synthetic `".end method\n"` line — with every
instruction, registers and debug line of the body dropped (including the
original end-of-method line). -/
theorem native_class_methods_patch :
    (∀ lines : List String, native_class_methods [] lines = lines) ∧
    (∀ (compiled : List Triple) (cn line : String) (rest : List String),
      pyStartsWith (pyStrip line) ".class" = false →
      (cn, (splitAtParen (lastWord (pyStrip line))).1,
        (splitAtParen (lastWord (pyStrip line))).2) ∉ compiled →
      native_loop compiled .scanning cn (line :: rest) =
        line :: native_loop compiled .scanning cn rest) ∧
    (∀ (compiled : List Triple) (cn header annStart annEnd endLine : String)
      (instr1 annContent instr2 post : List String),
      pyStartsWith (pyStrip header) ".class" = false →
      pyStartsWith (pyStrip header) ".method" = true →
      (cn, (splitAtParen (lastWord (pyStrip header))).1,
        (splitAtParen (lastWord (pyStrip header))).2) ∈ compiled →
      (∀ l ∈ instr1 ++ instr2,
        ¬ pyStrip l = ".end method" ∧ isKeptAnnStart (pyStrip l) = false) →
      isKeptAnnStart (pyStrip annStart) = true →
      (∀ l ∈ annContent, ¬ pyStrip l = ".end annotation") →
      pyStrip annEnd = ".end annotation" →
      pyStrip endLine = ".end method" →
      native_loop compiled .scanning cn
          (header :: (instr1 ++ annStart :: annContent ++ annEnd :: instr2) ++ endLine :: post) =
        (if strContains (pyStrip header) " native " then header
         else pyReplace header (lastWord (pyStrip header))
           ("native " ++ lastWord (pyStrip header))) ::
          ((annStart :: (annContent ++ [annEnd])) ++
            (".end method\n" :: native_loop compiled .scanning cn post))) := by
  refine ⟨?_, ?_, ?_⟩
  · intro lines
    exact native_loop_empty_compiled lines ""
  · intro compiled cn line rest hclass hsel
    exact native_loop_scanning_copy compiled cn line rest hclass hsel
  · intro compiled cn header annStart annEnd endLine instr1 annContent instr2 post
      hclass hmethod hmem hdisc hann hacontent haend hend
    have hd1 : ∀ l ∈ instr1,
        ¬ pyStrip l = ".end method" ∧ isKeptAnnStart (pyStrip l) = false :=
      fun l hl => hdisc l (List.mem_append_left _ hl)
    have hd2 : ∀ l ∈ instr2,
        ¬ pyStrip l = ".end method" ∧ isKeptAnnStart (pyStrip l) = false :=
      fun l hl => hdisc l (List.mem_append_right _ hl)
    simp only [List.cons_append, native_loop]
    rw [if_neg (by simp [hclass]), if_pos hmethod, if_pos hmem]
    congr 1
    simp only [List.append_eq, List.append_assoc, List.cons_append]
    rw [native_loop_body_discard compiled cn instr1 _ hd1]
    rw [native_loop_body_ann compiled cn annStart _ hann]
    rw [native_loop_ann_copy compiled cn annContent _ hacontent]
    rw [native_loop_ann_end compiled cn annEnd _ haend]
    rw [native_loop_body_discard compiled cn instr2 _ hd2]
    rw [native_loop_body_end compiled cn endLine post hend]
    simp [List.append_assoc]

/-- Witness for C4, on a concrete smali fragment. -/
theorem native_class_methods_patch_witness :
    native_class_methods [] w4_lines = w4_lines ∧
    native_loop w4_compiled .scanning "LFoo;" ("# c\n" :: w4_post) =
      "# c\n" :: native_loop w4_compiled .scanning "LFoo;" w4_post ∧
    native_loop w4_compiled .scanning "LFoo;"
        (w4_header :: (w4_instr1 ++ w4_annStart :: w4_annContent ++ w4_annEnd :: w4_instr2) ++
          w4_endLine :: w4_post) =
      (if strContains (pyStrip w4_header) " native " then w4_header
       else pyReplace w4_header (lastWord (pyStrip w4_header))
         ("native " ++ lastWord (pyStrip w4_header))) ::
        ((w4_annStart :: (w4_annContent ++ [w4_annEnd])) ++
          (".end method\n" :: native_loop w4_compiled .scanning "LFoo;" w4_post)) :=
  ⟨native_class_methods_patch.1 w4_lines,
   native_class_methods_patch.2.1 w4_compiled "LFoo;" "# c\n" w4_post (by decide) (by decide),
   native_class_methods_patch.2.2 w4_compiled "LFoo;" w4_header w4_annStart w4_annEnd w4_endLine
     w4_instr1 w4_annContent w4_instr2 w4_post (by decide) (by decide) (by decide) (by decide)
     (by decide) (by decide) (by decide) (by decide)⟩

/-! ## Lemmas about ABI reconciliation -/

theorem collectAbis_error_of_bad :
    ∀ (names warns abis : List String),
    (∃ n ∈ names, pyStartsWith n "lib/" = true ∧ abiOf n ∉ supported_abis ∧
      ¬ abiOf n = "armeabi") →
    ∃ e, collectAbis names warns abis = .error e := by
  intro names
  induction names with
  | nil => intro warns abis ⟨n, hn, _⟩; cases hn
  | cons n0 rest ih =>
    intro warns abis ⟨n, hn, hlib, hsup, harm⟩
    rcases List.mem_cons.mp hn with rfl | hn'
    · refine ⟨"ABI " ++ abiOf n ++
        " is unsupported, please remove it from apk or use flag --force-keep-libs and try again", ?_⟩
      unfold collectAbis
      rw [if_pos hlib, if_neg hsup, if_neg harm]
    · unfold collectAbis
      by_cases h0 : pyStartsWith n0 "lib/" = true
      · rw [if_pos h0]
        by_cases h1 : abiOf n0 ∈ supported_abis
        · rw [if_pos h1]
          exact ih _ _ ⟨n, hn', hlib, hsup, harm⟩
        · rw [if_neg h1]
          by_cases h2 : abiOf n0 = "armeabi"
          · rw [if_pos h2]
            exact ih _ _ ⟨n, hn', hlib, hsup, harm⟩
          · rw [if_neg h2]
            exact ⟨_, rfl⟩
      · rw [if_neg h0]
        exact ih _ _ ⟨n, hn', hlib, hsup, harm⟩

theorem collectAbis_warns_length :
    ∀ (names warns abis w a : List String),
    collectAbis names warns abis = .ok (w, a) → warns.length ≤ w.length := by
  intro names
  induction names with
  | nil =>
    intro warns abis w a h
    unfold collectAbis at h
    injection h with h'
    rw [show warns = w from congrArg Prod.fst h']
  | cons n0 rest ih =>
    intro warns abis w a h
    unfold collectAbis at h
    by_cases h0 : pyStartsWith n0 "lib/" = true
    · rw [if_pos h0] at h
      by_cases h1 : abiOf n0 ∈ supported_abis
      · rw [if_pos h1] at h
        exact ih _ _ _ _ h
      · rw [if_neg h1] at h
        by_cases h2 : abiOf n0 = "armeabi"
        · rw [if_pos h2] at h
          have := ih _ _ _ _ h
          simp only [List.length_append, List.length_singleton] at this
          omega
        · rw [if_neg h2] at h
          cases h
    · rw [if_neg h0] at h
      exact ih _ _ _ _ h

theorem collectAbis_abis_mono :
    ∀ (names warns abis w a : List String) (x : String),
    x ∈ abis → collectAbis names warns abis = .ok (w, a) → x ∈ a := by
  intro names
  induction names with
  | nil =>
    intro warns abis w a x hx h
    unfold collectAbis at h
    injection h with h'
    rw [← show abis = a from congrArg Prod.snd h']
    exact hx
  | cons n0 rest ih =>
    intro warns abis w a x hx h
    unfold collectAbis at h
    by_cases h0 : pyStartsWith n0 "lib/" = true
    · rw [if_pos h0] at h
      by_cases h1 : abiOf n0 ∈ supported_abis
      · rw [if_pos h1] at h
        refine ih _ _ _ _ x ?_ h
        split
        · exact hx
        · exact List.mem_append_left _ hx
      · rw [if_neg h1] at h
        by_cases h2 : abiOf n0 = "armeabi"
        · rw [if_pos h2] at h
          refine ih _ _ _ _ x ?_ h
          split
          · exact hx
          · exact List.mem_append_left _ hx
        · rw [if_neg h2] at h
          cases h
    · rw [if_neg h0] at h
      exact ih _ _ _ _ x hx h

theorem collectAbis_abis_supported :
    ∀ (names warns abis w a : List String) (x : String),
    collectAbis names warns abis = .ok (w, a) → x ∈ a →
    x ∈ abis ∨ x ∈ supported_abis := by
  intro names
  induction names with
  | nil =>
    intro warns abis w a x h hx
    unfold collectAbis at h
    injection h with h'
    rw [← show abis = a from congrArg Prod.snd h'] at hx
    exact Or.inl hx
  | cons n0 rest ih =>
    intro warns abis w a x h hx
    unfold collectAbis at h
    by_cases h0 : pyStartsWith n0 "lib/" = true
    · rw [if_pos h0] at h
      by_cases h1 : abiOf n0 ∈ supported_abis
      · rw [if_pos h1] at h
        rcases ih _ _ _ _ x h hx with h' | h'
        · revert h'
          split
          · exact Or.inl
          · intro h'
            rcases List.mem_append.mp h' with h'' | h''
            · exact Or.inl h''
            · rw [List.mem_singleton.mp h'']
              exact Or.inr h1
        · exact Or.inr h'
      · rw [if_neg h1] at h
        by_cases h2 : abiOf n0 = "armeabi"
        · rw [if_pos h2] at h
          rcases ih _ _ _ _ x h hx with h' | h'
          · revert h'
            split
            · exact Or.inl
            · intro h'
              rcases List.mem_append.mp h' with h'' | h''
              · exact Or.inl h''
              · rw [List.mem_singleton.mp h'']
                exact Or.inr (by decide)
          · exact Or.inr h'
        · rw [if_neg h2] at h
          cases h
    · rw [if_neg h0] at h
      exact ih _ _ _ _ x h hx

theorem collectAbis_armeabi_remapped :
    ∀ (names warns abis w a : List String),
    (∃ n ∈ names, pyStartsWith n "lib/" = true ∧ abiOf n = "armeabi") →
    collectAbis names warns abis = .ok (w, a) →
    "armeabi-v7a" ∈ a ∧ 1 ≤ w.length := by
  intro names
  induction names with
  | nil => intro warns abis w a ⟨n, hn, _⟩; cases hn
  | cons n0 rest ih =>
    intro warns abis w a ⟨n, hn, hlib, harm⟩ h
    unfold collectAbis at h
    rcases List.mem_cons.mp hn with rfl | hn'
    · rw [if_pos hlib, if_neg (by rw [harm]; decide), if_pos harm] at h
      constructor
      · refine collectAbis_abis_mono _ _ _ _ _ _ ?_ h
        split
        · assumption
        · exact List.mem_append_right _ (List.mem_singleton.mpr rfl)
      · have := collectAbis_warns_length _ _ _ _ _ h
        simp only [List.length_append, List.length_singleton] at this
        omega
    · by_cases h0 : pyStartsWith n0 "lib/" = true
      · rw [if_pos h0] at h
        by_cases h1 : abiOf n0 ∈ supported_abis
        · rw [if_pos h1] at h
          exact ih _ _ _ _ ⟨n, hn', hlib, harm⟩ h
        · rw [if_neg h1] at h
          by_cases h2 : abiOf n0 = "armeabi"
          · rw [if_pos h2] at h
            exact ih _ _ _ _ ⟨n, hn', hlib, harm⟩ h
          · rw [if_neg h2] at h
            cases h
      · rw [if_neg h0] at h
        exact ih _ _ _ _ ⟨n, hn', hlib, harm⟩ h

theorem adjustMk_not_mem_archive_steps (env : DccEnv) : Step.adjustMk ∉ archive_steps env := by
  unfold archive_steps
  split <;> simp

theorem adjustMk_not_mem_build_steps (env : DccEnv) : Step.adjustMk ∉ build_steps env := by
  unfold build_steps
  split <;> simp

theorem adjustMk_not_mem_adjust_steps (env : DccEnv) (hf : env.force_keep_libs = true) :
    Step.adjustMk ∉ adjust_steps env := by
  unfold adjust_steps
  rw [if_neg (by simp [hf])]
  simp

theorem adjust_application_mk_ok {apkfile : String} {namelist mk w abis mk' : List String}
    (h : adjust_application_mk apkfile namelist mk = .ok (w, abis, mk')) :
    collectAbis namelist [] [] = .ok (w, abis) ∧
    ((abis.length = 0 ∧ mk' = mk) ∨
      (¬ abis.length = 0 ∧ mk' = mk.map (fun line =>
        if pyStartsWith line "APP_ABI" then "APP_ABI := " ++ strJoin " " abis ++ "\n"
        else line))) := by
  unfold adjust_application_mk at h
  split at h
  · split at h
    · cases h
    · rename_i w0 a0 heq
      split at h
      · rename_i hlen
        simp only [Except.ok.injEq, Prod.mk.injEq] at h
        refine ⟨?_, Or.inl ⟨?_, ?_⟩⟩
        · rw [← h.1, ← h.2.1]; exact heq
        · rw [← h.2.1]; exact hlen
        · exact h.2.2.symm
      · rename_i hlen
        simp only [Except.ok.injEq, Prod.mk.injEq] at h
        refine ⟨?_, Or.inr ⟨?_, ?_⟩⟩
        · rw [← h.1, ← h.2.1]; exact heq
        · rw [← h.2.1]; exact hlen
        · rw [← h.2.1]; exact h.2.2.symm
  · cases h

/-- C6.  ABI reconciliation: an ABI directory outside the supported set and
different from the deprecated `armeabi` makes `adjust_application_mk` raise;
`armeabi` is remapped to `armeabi-v7a` with a warning and never kept or
dropped silently; the reconciled set is always inside the supported set; when
at least one ABI was found the `APP_ABI` line is rewritten to exactly the
reconciled set (and the file is untouched otherwise); and with the
force-keep-libs override the whole reconciliation step is skipped by
`dcc_main`. -/
theorem adjust_application_mk_abi_rules :
    (∀ (apkfile : String) (namelist mk : List String),
      pyEndsWith apkfile ".apk" = true →
      (∃ n ∈ namelist, pyStartsWith n "lib/" = true ∧ abiOf n ∉ supported_abis ∧
        ¬ abiOf n = "armeabi") →
      ∃ e, adjust_application_mk apkfile namelist mk = .error e) ∧
    (∀ (apkfile : String) (namelist mk w abis mk' : List String),
      adjust_application_mk apkfile namelist mk = .ok (w, abis, mk') →
      (∃ n ∈ namelist, pyStartsWith n "lib/" = true ∧ abiOf n = "armeabi") →
      "armeabi-v7a" ∈ abis ∧ ¬ w = [] ∧ "armeabi" ∉ abis) ∧
    (∀ (apkfile : String) (namelist mk w abis mk' : List String),
      adjust_application_mk apkfile namelist mk = .ok (w, abis, mk') →
      ∀ x ∈ abis, x ∈ supported_abis) ∧
    (∀ (apkfile : String) (namelist mk w abis mk' : List String),
      adjust_application_mk apkfile namelist mk = .ok (w, abis, mk') →
      (abis = [] → mk' = mk) ∧
      (¬ abis = [] → mk' = mk.map (fun line =>
        if pyStartsWith line "APP_ABI" then "APP_ABI := " ++ strJoin " " abis ++ "\n"
        else line))) ∧
    (∀ (env : DccEnv) (tr : List Step) (c : Option (List String)),
      env.force_keep_libs = true → dcc_main env = .ok (tr, c) → Step.adjustMk ∉ tr) := by
  refine ⟨?_, ?_, ?_, ?_, ?_⟩
  · intro apkfile namelist mk hapk hbad
    obtain ⟨e, he⟩ := collectAbis_error_of_bad namelist [] [] hbad
    refine ⟨e, ?_⟩
    unfold adjust_application_mk
    rw [if_pos hapk, he]
  · intro apkfile namelist mk w abis mk' h harm
    obtain ⟨hcol, _⟩ := adjust_application_mk_ok h
    have h1 := collectAbis_armeabi_remapped namelist [] [] w abis harm hcol
    refine ⟨h1.1, ?_, ?_⟩
    · intro hw
      rw [hw] at h1
      simp at h1
    · intro hmem
      rcases collectAbis_abis_supported namelist [] [] w abis "armeabi" hcol hmem with h' | h'
      · cases h'
      · exact absurd h' (by decide)
  · intro apkfile namelist mk w abis mk' h x hx
    obtain ⟨hcol, _⟩ := adjust_application_mk_ok h
    rcases collectAbis_abis_supported namelist [] [] w abis x hcol hx with h' | h'
    · cases h'
    · exact h'
  · intro apkfile namelist mk w abis mk' h
    obtain ⟨_, hres⟩ := adjust_application_mk_ok h
    constructor
    · intro hnil
      rcases hres with ⟨_, h2⟩ | ⟨h1, _⟩
      · exact h2
      · exact absurd (by rw [hnil]; rfl) h1
    · intro hne
      rcases hres with ⟨h1, _⟩ | ⟨_, h2⟩
      · exact absurd (List.length_eq_zero.mp h1) hne
      · exact h2
  · intro env tr c hf h
    unfold dcc_main at h
    split at h
    all_goals try (split at h)
    all_goals try (split at h)
    all_goals try (split at h)
    all_goals try (split at h)
    all_goals try (split at h)
    all_goals try (split at h)
    all_goals try (split at h)
    all_goals try (split at h)
    all_goals simp_all [adjustMk_not_mem_archive_steps, adjustMk_not_mem_build_steps,
      adjustMk_not_mem_adjust_steps]
    all_goals
      (obtain ⟨h1, h2⟩ := h
       rw [← h1]
       simp [adjustMk_not_mem_adjust_steps env hf, adjustMk_not_mem_archive_steps,
         adjustMk_not_mem_build_steps])

/-- Witness for C6 on concrete zip entry lists: `lib/mips` raises, `armeabi`
is remapped with a warning, the reconciled set is supported, the `APP_ABI`
line is rewritten, and a forced run has no reconciliation step. -/
theorem adjust_application_mk_abi_rules_witness :
    (∃ e, adjust_application_mk "a.apk" w6_names_bad w6_mk = Except.error e) ∧
    ("armeabi-v7a" ∈ w6_abis ∧ ¬ w6_warns = [] ∧ "armeabi" ∉ w6_abis) ∧
    (∀ x ∈ w6_abis, x ∈ supported_abis) ∧
    ((w6_abis = [] → w6_mk2 = w6_mk) ∧
      (¬ w6_abis = [] → w6_mk2 = w6_mk.map (fun line =>
        if pyStartsWith line "APP_ABI" then "APP_ABI := " ++ strJoin " " w6_abis ++ "\n"
        else line))) ∧
    Step.adjustMk ∉ ([Step.patchDex2C, Step.compileDex] : List Step) :=
  ⟨adjust_application_mk_abi_rules.1 "a.apk" w6_names_bad w6_mk (by decide) (by decide),
   adjust_application_mk_abi_rules.2.1 "a.apk" w6_names_arm w6_mk w6_warns w6_abis w6_mk2
     rfl (by decide),
   adjust_application_mk_abi_rules.2.2.1 "a.apk" w6_names_arm w6_mk w6_warns w6_abis w6_mk2 rfl,
   adjust_application_mk_abi_rules.2.2.2.1 "a.apk" w6_names_arm w6_mk w6_warns w6_abis w6_mk2 rfl,
   adjust_application_mk_abi_rules.2.2.2.2 envw_force [Step.patchDex2C, Step.compileDex] none
     rfl rfl⟩

/-- A dex with a single compilable method. -/
def dw_one : Dex := { methods := [mw_plain], classes := [] }

/-- An application-class listing with a static initializer but no
`.locals`/`.registers` directive. -/
def w5_content : List String := ["# <clinit> here\n", "    return-void\n"]

/-- An environment whose application class has a `<clinit>` but no
locals/registers directive. -/
def envw_noloc : DccEnv :=
  { apkfile := "c.apk", apk_exists := true, outapk := "out.apk", custom_loader := "com.App",
    filtercfg := cfgw_all, skip_synthetic := false, force_keep_libs := true,
    dexes := [dw_one], translator := trw_ok, jni := jniw,
    do_compile := false, has_project_dir := true, namelist := [], application_mk := [],
    local_module := some "stub", application_class_name := "com.MyApp",
    app_class_content := some w5_content }

theorem mem_adjust_steps {x : Step} {env : DccEnv} (h : x ∈ adjust_steps env) :
    x = Step.patchDex2C ∨ x = Step.adjustMk := by
  unfold adjust_steps at h
  split at h <;> simp_all

theorem not_mem_halt_trace {env : DccEnv} {x : Step}
    (h1 : ¬ x = Step.patchDex2C) (h2 : ¬ x = Step.adjustMk) (h3 : ¬ x = Step.compileDex) :
    x ∉ adjust_steps env ++ [Step.compileDex] := by
  intro hmem
  rcases List.mem_append.mp hmem with hx | hx
  · rcases mem_adjust_steps hx with h | h
    · exact h1 h
    · exact h2 h
  · exact h3 (List.mem_singleton.mp hx)

/-- C7.  When `compile_dex` returns an empty compiled-method map, `dcc_main`
returns right after the compilation step: the trace ends at `compileDex` and
contains no native build, decompile, listing patch, repackage or sign
step. -/
theorem empty_compile_halts_early (env : DccEnv)
    (h1 : env.apk_exists = true)
    (h2 : ¬ env.outapk = "")
    (h3 : strContains env.custom_loader "." = true)
    (h4 : ∃ u, adjust_result env = .ok u)
    (h5 : (compile_dex env.skip_synthetic env.filtercfg env.translator env.jni env.dexes).1
      = []) :
    dcc_main env = .ok (adjust_steps env ++ [Step.compileDex], none) ∧
    Step.buildProject ∉ adjust_steps env ++ [Step.compileDex] ∧
    Step.decompile ∉ adjust_steps env ++ [Step.compileDex] ∧
    Step.patchListings ∉ adjust_steps env ++ [Step.compileDex] ∧
    Step.writeMethods ∉ adjust_steps env ++ [Step.compileDex] ∧
    Step.recompile ∉ adjust_steps env ++ [Step.compileDex] ∧
    Step.sign ∉ adjust_steps env ++ [Step.compileDex] := by
  refine ⟨?_, ?_, ?_, ?_, ?_, ?_, ?_⟩
  · unfold dcc_main
    rw [if_neg (by simp [h1]), if_neg h2, if_neg (by simp [h3])]
    obtain ⟨u, hu⟩ := h4
    rw [hu]
    rw [if_pos (by rw [h5]; rfl)]
  all_goals exact not_mem_halt_trace (by decide) (by decide) (by decide)

/-- Witness for C7. -/
theorem empty_compile_halts_early_witness :
    dcc_main envw_empty = .ok (adjust_steps envw_empty ++ [Step.compileDex], none) ∧
    Step.buildProject ∉ adjust_steps envw_empty ++ [Step.compileDex] ∧
    Step.decompile ∉ adjust_steps envw_empty ++ [Step.compileDex] ∧
    Step.patchListings ∉ adjust_steps envw_empty ++ [Step.compileDex] ∧
    Step.writeMethods ∉ adjust_steps envw_empty ++ [Step.compileDex] ∧
    Step.recompile ∉ adjust_steps envw_empty ++ [Step.compileDex] ∧
    Step.sign ∉ adjust_steps envw_empty ++ [Step.compileDex] :=
  empty_compile_halts_early envw_empty rfl (by decide) rfl ⟨(), rfl⟩ rfl

/-- Counterexample for C5: with a `<clinit>` line but no locals/registers
directive anywhere after it, the run does not abort — it proceeds through
repackaging and signing and writes the listing back unchanged. -/
theorem clinit_missing_directive_continues :
    dcc_main envw_noloc =
      .ok ([Step.patchDex2C, Step.compileDex, Step.writeMethods, Step.decompile,
        Step.patchListings, Step.copyLibs, Step.injectClinit, Step.writeLoader,
        Step.recompile, Step.sign], some w5_content) := by
  rfl

theorem inject_clinit_no_directive (ins blk : String) (content : List String) (i : Nat)
    (h1 : content.findIdx? (fun l => strContains l "<clinit>") = some i)
    (h2 : (content.drop i).findIdx?
      (fun l => strContains l ".locals" || strContains l ".registers") = none) :
    inject_clinit ins blk content = content := by
  unfold inject_clinit
  split
  · rename_i heq
    rw [h1] at heq
    cases heq
  · rename_i index heq
    rw [h1] at heq
    injection heq with heq'
    subst heq'
    split
    · rfl
    · rename_i li heq2
      rw [h2] at heq2
      cases heq2

/-- C5 (amended).  When the listing has a `<clinit>` line but no
`.locals`/`.registers` line at or after it, the code only logs an error: the
listing is written back unchanged and the run continues to the signing step
(no abort).  When the directive is found, exactly one loader call line is
inserted immediately after it and no other line is altered. -/
theorem inject_clinit_spec :
    (∀ (ins blk : String) (content : List String) (i : Nat),
      content.findIdx? (fun l => strContains l "<clinit>") = some i →
      (content.drop i).findIdx?
        (fun l => strContains l ".locals" || strContains l ".registers") = none →
      inject_clinit ins blk content = content) ∧
    (∀ (ins blk : String) (content : List String) (i j : Nat),
      content.findIdx? (fun l => strContains l "<clinit>") = some i →
      (content.drop i).findIdx?
        (fun l => strContains l ".locals" || strContains l ".registers") = some j →
      inject_clinit ins blk content =
        content.take (i + j + 1) ++ ins :: content.drop (i + j + 1)) ∧
    (∀ (env : DccEnv) (content : List String) (i : Nat),
      env.apk_exists = true →
      ¬ env.outapk = "" →
      strContains env.custom_loader "." = true →
      (∃ u, adjust_result env = .ok u) →
      ¬ (compile_dex env.skip_synthetic env.filtercfg env.translator env.jni env.dexes).1.length
        = 0 →
      pyEndsWith env.apkfile ".apk" = true →
      (∃ lm, env.local_module = some lm) →
      env.app_class_content = some content →
      ¬ env.application_class_name = "" →
      content.findIdx? (fun l => strContains l "<clinit>") = some i →
      (content.drop i).findIdx?
        (fun l => strContains l ".locals" || strContains l ".registers") = none →
      ∃ tr, dcc_main env = .ok (tr, some content) ∧ Step.sign ∈ tr) := by
  refine ⟨?_, ?_, ?_⟩
  · exact inject_clinit_no_directive
  · intro ins blk content i j h1 h2
    unfold inject_clinit
    split
    · rename_i heq
      rw [h1] at heq
      cases heq
    · rename_i index heq
      rw [h1] at heq
      injection heq with heq'
      subst heq'
      split
      · rename_i heq2
        rw [h2] at heq2
        cases heq2
      · rename_i li heq2
        rw [h2] at heq2
        injection heq2 with heq2'
        subst heq2'
        rfl
  · intro env content i hex hout hld hadj hcmp hapk hlm hcontent hname hfind hdir
    obtain ⟨u, hu⟩ := hadj
    obtain ⟨lm, hlm⟩ := hlm
    refine ⟨adjust_steps env ++ [Step.compileDex, Step.writeMethods] ++ archive_steps env ++
      build_steps env ++
      [Step.decompile, Step.patchListings, Step.copyLibs, Step.injectClinit,
        Step.writeLoader, Step.recompile, Step.sign], ?_, ?_⟩
    · unfold dcc_main
      rw [if_neg (by simp [hex]), if_neg hout, if_neg (by simp [hld])]
      split
      · rename_i heq
        rw [hu] at heq
        cases heq
      · rw [if_neg hcmp, if_pos (by simp [hapk, hout])]
        split
        · rename_i heq
          rw [hlm] at heq
          cases heq
        · split
          · rename_i heq
            rw [hcontent] at heq
            cases heq
          · rename_i content' heq
            rw [hcontent] at heq
            injection heq with heq'
            subst heq'
            rw [if_neg hname]
            rw [inject_clinit_no_directive _ _ content i hfind hdir]
    · simp

/-- Witness for the amended C5: no-directive leaves the listing alone while
the run still signs; a present directive gets exactly one inserted line. -/
theorem inject_clinit_spec_witness :
    inject_clinit "I\n" "B" ["a <clinit> b\n", "x\n"] = ["a <clinit> b\n", "x\n"] ∧
    inject_clinit "I\n" "B" ["a <clinit> b\n", "  .locals 1\n", "x\n"] =
      (["a <clinit> b\n", "  .locals 1\n", "x\n"].take 2) ++
        "I\n" :: (["a <clinit> b\n", "  .locals 1\n", "x\n"].drop 2) ∧
    (∃ tr, dcc_main envw_noloc = .ok (tr, some w5_content) ∧ Step.sign ∈ tr) :=
  ⟨inject_clinit_spec.1 "I\n" "B" ["a <clinit> b\n", "x\n"] 0 rfl rfl,
   inject_clinit_spec.2.1 "I\n" "B" ["a <clinit> b\n", "  .locals 1\n", "x\n"] 0 1 rfl rfl,
   inject_clinit_spec.2.2 envw_noloc w5_content 0 rfl (by decide) rfl ⟨(), rfl⟩
     (by decide) rfl ⟨"stub", rfl⟩ rfl (by decide) rfl rfl⟩
